import Mathlib

/-!
# Verification of the Tiny Basic two-pass assembler

Shallow embedding of the assembler engine in `src/lib/assembler.ts`
(functions `evaluateExpression`, `transformText`, `removeComments`,
`extractLabel`, `processPass1Line`, `pass1`, `LSB`, `MSB`,
`processPass2Line`, `pass2`) together with proofs about it.

Modelling conventions:

* Strings are `List Char` (`Chars`).  JavaScript regular expressions are
  hand-translated into equivalent scanning functions (leftmost match,
  greedy repetition with backtracking, as the concrete patterns behave).
* JavaScript numbers appearing in the assembler are integral in every
  reachable computation; they are modelled as `Int`.  The expression
  evaluator works over exact fractions: IEEE double rounding is not
  modelled, so every theorem that depends on an evaluated value either
  takes the value as a hypothesis or bounds its operands to a range on
  which the exact and rounded semantics observably agree; a division
  producing `Infinity`/`NaN` (division by zero) is modelled as failure,
  which is observably identical because such a value never passes the
  final `Number.isInteger` check.
* JavaScript 32-bit bitwise operators (`&`, `|`) are modelled by
  `jsAnd` / `jsOr`: conversion to two's-complement 32-bit integers,
  the bitwise operation on `Nat`, and reinterpretation of bit 31.
* The `Uint8Array(65536)` machine image is modelled as a total function
  `Nat → Int` with `imgWrite`: an assignment stores the value mod 256
  and an out-of-bounds assignment (index < 0 or > 65535) is a no-op,
  exactly the semantics of a JavaScript typed-array write.
* `Record<string, LabelEntry>` is modelled as an association list with
  insertion at the end (JS property insertion order).  The label keys
  used by the assembler are upper-cased, so the prototype-chain keys of
  a JS object (all containing lower-case letters) can never collide
  with them, and plain association-list lookup is faithful.
* The `try`/`catch` bodies of `processPass1Line` / `processPass2Line`
  are modelled in `Except String`; every `return { newOrgValue: orgValue,
  error: msg }` of the source is a `throw`.  In the source, no statement
  that can throw executes after a machine-code write on the same line
  (`LSB`/`MSB` keep their range checks, which are proved dead below), so
  discarding the image on error is faithful.
-/

namespace TBAsm

/-- A piece of source text, as a list of characters. -/
abbrev Chars := List Char

/-- ASCII part of JavaScript whitespace (`\s`, `String.prototype.trim`).
Source lines are 8-bit text; the Unicode white-space code points do not occur. -/
def isJsWS (c : Char) : Bool :=
  c = ' ' || c = '\t' || c = '\n' || c = '\r' || c = '\x0b' || c = '\x0c'

def isDigitC (c : Char) : Bool := '0' ≤ c && c ≤ '9'

def isAlphaC (c : Char) : Bool := ('A' ≤ c && c ≤ 'Z') || ('a' ≤ c && c ≤ 'z')

/-- First character class of the label pattern: `[A-Z_]` under the `i` flag. -/
def isLabelStart (c : Char) : Bool := isAlphaC c || c = '_'

/-- Subsequent label characters: `[A-Z0-9_]` under the `i` flag. -/
def isLabelChar (c : Char) : Bool := isAlphaC c || isDigitC c || c = '_'

/-- ASCII `String.prototype.toUpperCase` on one character. -/
def upChar (c : Char) : Char :=
  if 'a' ≤ c && c ≤ 'z' then Char.ofNat (c.toNat - 32) else c

def upChars (s : Chars) : Chars := s.map upChar

/-- `String.prototype.trim`. -/
def jsTrim (s : Chars) : Chars :=
  ((s.dropWhile isJsWS).reverse.dropWhile isJsWS).reverse

/-- `removeComments`: truncate at the first occurrence of `//`
(`line.indexOf('//')`), even inside quotes. -/
def removeComments : Chars → Chars
  | [] => []
  | '/' :: '/' :: _ => []
  | c :: t => c :: removeComments t

/-- Scan for the first occurrence of the character `q`; on success return
the characters before it and the characters after it. -/
def findClose (q : Char) : Chars → Option (Chars × Chars)
  | [] => none
  | c :: t =>
    if c = q then some ([], t)
    else
      match findClose q t with
      | some (a, r) => some (c :: a, r)
      | none => none

/-- The normalization step of `pass1`/`pass2` that upper-cases the line
except inside single- or double-quoted spans.  The source implements it
by replacing each match of `(['"])(.*?)\1` with a placeholder,
upper-casing, and substituting back; observably this upper-cases every
character outside the (leftmost, shortest, same-quote-delimited) quoted
spans and preserves those spans verbatim, which is what this scan does. -/
def upNonQuoted : Nat → Chars → Chars
  | 0, _ => []
  | _, [] => []
  | fuel + 1, c :: t =>
    if c = '"' || c = '\'' then
      match findClose c t with
      | some (content, rest) => c :: (content ++ c :: upNonQuoted fuel rest)
      | none => upChar c :: upNonQuoted fuel t
    else upChar c :: upNonQuoted fuel t

def normalizeLine (raw : Chars) : Chars :=
  let s := jsTrim (removeComments raw)
  upNonQuoted (s.length + 1) s

/-- Result record of `extractLabel`. -/
structure ExtractResult where
  label : Option Chars
  remaining : Chars
  error : Option String
deriving Repr, DecidableEq

/-- Length of the maximal run matching `[A-Z0-9_]*` (case-insensitive). -/
def countLabelChars : Chars → Nat
  | [] => 0
  | c :: t => if isLabelChar c then countLabelChars t + 1 else 0

/-- Length of the maximal run matching `[A-Z_][A-Z0-9_]*` (case-insensitive),
i.e. the candidate label body after the colon. -/
def labelRun : Chars → Nat
  | [] => 0
  | c :: t => if isLabelStart c then countLabelChars t + 1 else 0

/-- Length of the maximal run of `\s` characters. -/
def countWS : Chars → Nat
  | [] => 0
  | c :: t => if isJsWS c then countWS t + 1 else 0

/-- Does the first character (if any) satisfy `p`? -/
def headIs (p : Char → Bool) : Chars → Bool
  | [] => false
  | c :: _ => p c

/-- `extractLabel`.  The main pattern is `^:([A-Z_][A-Z0-9_]{0,7})\s+(.+)$`
with the `i` flag: with backtracking it matches exactly when the maximal
label-character run `k` after the colon satisfies `1 ≤ k ≤ 8`, the run is
followed by at least one `\s` character, and after the whitespace either a
non-empty remainder follows, or (`\s+` giving one character back to `(.+)`)
the whitespace run has length at least 2.  On failure the error conditions
are checked in the source's order. -/
def extractLabel (line : Chars) : ExtractResult :=
  match line with
  | ':' :: rest =>
    let k := labelRun rest
    let afterL := rest.drop k
    let j := countWS afterL
    if 1 ≤ k ∧ k ≤ 8 ∧ 1 ≤ j ∧ (afterL.drop j ≠ [] ∨ 2 ≤ j) then
      { label := some (upChars (rest.take k)),
        remaining := if afterL.drop j ≠ [] then afterL.drop j else afterL.drop (j - 1),
        error := none }
    else if headIs isDigitC rest then
      ⟨none, line, some "Label cannot start with a number after colon"⟩
    else if headIs (fun c => c = '_') rest then
      ⟨none, line, some "Label cannot start with underscore after colon"⟩
    else if 9 ≤ k then
      ⟨none, line, some "Label exceeds 8 characters"⟩
    else if ¬ line.any isJsWS then
      ⟨none, line, some "Label cannot stand by itself on the line"⟩
    else
      ⟨none, line, some "Invalid label format"⟩
  | _ => ⟨none, line, none⟩

/-! ## JavaScript 32-bit bitwise operators and the typed-array image -/

/-- `ToUint32`: two's-complement conversion of an integral JS number. -/
def toUint32 (v : Int) : Nat := (v % 4294967296).toNat

/-- Reinterpret a 32-bit unsigned value as a signed 32-bit integer. -/
def fromInt32 (n : Nat) : Int :=
  if n < 2147483648 then (n : Int) else (n : Int) - 4294967296

/-- JavaScript `&` on integral numbers. -/
def jsAnd (a b : Int) : Int := fromInt32 (Nat.land (toUint32 a) (toUint32 b))

/-- JavaScript `|` on integral numbers. -/
def jsOr (a b : Int) : Int := fromInt32 (Nat.lor (toUint32 a) (toUint32 b))

/-- The 65536-byte machine image (`Uint8Array(65536)`), as a total map from
addresses to byte values; addresses ≥ 65536 always read 0. -/
abbrev Image := Nat → Int

def initImage : Image := fun _ => 0

/-- One typed-array assignment `machineCode[i] = v`: the value is stored
mod 256 (`ToUint8`), and an out-of-bounds index makes the write a no-op. -/
def imgWrite (img : Image) (i : Int) (v : Int) : Image :=
  if 0 ≤ i ∧ i < 65536 then
    fun j => if (j : Int) = i then v % 256 else img j
  else img

/-- Consecutive assignments `machineCode[i] = b₀; machineCode[i+1] = b₁; …`
(the `for` loops of the `PC` and `BC` cases). -/
def writeBytes : Image → Int → List Int → Image
  | img, _, [] => img
  | img, i, b :: rest => writeBytes (imgWrite img i b) (i + 1) rest

/-! ## `transformText` -/

/-- The left-to-right scan of `transformText`: `@`..`Z` followed by `^`
collapses to (code − 64); `^^` collapses to one `^`; otherwise the
character code is copied. -/
def textScan : Chars → List Int
  | [] => []
  | [c] => [(c.toNat : Int)]
  | c1 :: c2 :: rest =>
    if ('@' ≤ c1 && c1 ≤ 'Z') && c2 = '^' then
      ((c1.toNat : Int) - 64) :: textScan rest
    else if c1 = '^' && c2 = '^' then
      ((94 : Int)) :: textScan rest
    else (c1.toNat : Int) :: textScan (c2 :: rest)

/-- `result[result.length - 1] |= 0x80` on a non-empty result. -/
def setLastHigh : List Int → List Int
  | [] => []
  | [v] => [jsOr v 128]
  | v :: rest => v :: setLastHigh rest

/-- `transformText`: the transformed byte sequence and its length. -/
def transformText (text : Chars) : List Int × Nat :=
  let bs := setLastHigh (textScan text)
  (bs, bs.length)

/-! ## `evaluateExpression`

The source trims the operand, rewrites hex (`0[xX][0-9A-Fa-f]+`) and then
binary (`0[bB][01]+`) literal substrings to decimal (global, unanchored
replacement), evaluates the result as a strict-mode JavaScript expression
via the `Function` constructor, and requires `Number.isInteger` of the
result.  The reachable expressions are numeric: decimal literals, `+ - *
/ %`, unary sign, parentheses.  They are evaluated here over exact
rationals; any lexical or syntactic failure, any non-numeric token, a
division/remainder by zero (JS `Infinity`/`NaN`), and a non-integer
result all produce `none` — each of those makes the source throw the
`Invalid expression` error.  (Not modelled, and unreachable from the
claims: fractional literals such as `1.5`, `**`, and double rounding
above 2^53.) -/

def isHexDigitC (c : Char) : Bool :=
  isDigitC c || ('A' ≤ c && c ≤ 'F') || ('a' ≤ c && c ≤ 'f')

def isBinDigitC (c : Char) : Bool := c = '0' || c = '1'

def hexDigitVal (c : Char) : Nat :=
  if isDigitC c then c.toNat - 48
  else if 'a' ≤ c && c ≤ 'f' then c.toNat - 87
  else c.toNat - 55

def hexToNat (ds : Chars) : Nat := ds.foldl (fun acc c => 16 * acc + hexDigitVal c) 0

def binToNat (ds : Chars) : Nat := ds.foldl (fun acc c => 2 * acc + hexDigitVal c) 0

/-- Exact value of a decimal digit run.  JavaScript parses a numeric
literal to the nearest IEEE double, which agrees with the exact value
for literals below 2^53 and silently rounds above it (e.g.
`9007199254740993` parses as `9007199254740992`); the division theorem
below therefore restricts its operands to well below that bound. -/
def decToNat (ds : Chars) : Nat := ds.foldl (fun acc c => 10 * acc + (c.toNat - 48)) 0

/-- Decimal digits of a natural number (used to print a replaced literal). -/
def natDecGo : Nat → Nat → Chars
  | 0, _ => []
  | fuel + 1, n =>
    if n < 10 then [Char.ofNat (48 + n)]
    else natDecGo fuel (n / 10) ++ [Char.ofNat (48 + n % 10)]

def natDec (n : Nat) : Chars := natDecGo (n + 1) n

/-- Global unanchored replacement of `0[xX]([0-9A-Fa-f]+)` by the decimal
digits of the literal's value. -/
def hexReplaceGo : Nat → Chars → Chars
  | 0, _ => []
  | _, [] => []
  | fuel + 1, c :: t =>
    if c = '0' then
      match t with
      | x :: rest =>
        if (x = 'x' || x = 'X') && headIs isHexDigitC rest then
          natDec (hexToNat (rest.takeWhile isHexDigitC)) ++
            hexReplaceGo fuel (rest.dropWhile isHexDigitC)
        else c :: hexReplaceGo fuel t
      | [] => [c]
    else c :: hexReplaceGo fuel t

def hexReplace (s : Chars) : Chars := hexReplaceGo (s.length + 1) s

/-- Global unanchored replacement of `0[bB]([01]+)` by decimal digits. -/
def binReplaceGo : Nat → Chars → Chars
  | 0, _ => []
  | _, [] => []
  | fuel + 1, c :: t =>
    if c = '0' then
      match t with
      | x :: rest =>
        if (x = 'b' || x = 'B') && headIs isBinDigitC rest then
          natDec (binToNat (rest.takeWhile isBinDigitC)) ++
            binReplaceGo fuel (rest.dropWhile isBinDigitC)
        else c :: binReplaceGo fuel t
      | [] => [c]
    else c :: binReplaceGo fuel t

def binReplace (s : Chars) : Chars := binReplaceGo (s.length + 1) s

/-- Tokens of the numeric expression grammar. -/
inductive Tok where
  | num (n : Nat)
  | plus | minus | star | slash | percent | lp | rp
deriving Repr, DecidableEq

/-- Lexer.  A digit run is one literal; in strict mode a literal `0`
followed by another digit is a syntax error (legacy octal form), and any
character that is not a digit, an operator, a parenthesis or whitespace
is a syntax error. -/
def lexGo : Nat → Chars → Option (List Tok)
  | 0, _ => none
  | _, [] => some []
  | fuel + 1, c :: t =>
    if isJsWS c then lexGo fuel t
    else if isDigitC c then
      if c = '0' && headIs isDigitC t then none
      else
        let ds := (c :: t).takeWhile isDigitC
        match lexGo fuel ((c :: t).dropWhile isDigitC) with
        | some ts => some (Tok.num (decToNat ds) :: ts)
        | none => none
    else
      let tok? : Option Tok :=
        if c = '+' then some Tok.plus
        else if c = '-' then some Tok.minus
        else if c = '*' then some Tok.star
        else if c = '/' then some Tok.slash
        else if c = '%' then some Tok.percent
        else if c = '(' then some Tok.lp
        else if c = ')' then some Tok.rp
        else none
      match tok? with
      | some tok =>
        match lexGo fuel t with
        | some ts => some (tok :: ts)
        | none => none
      | none => none

def lexChars (s : Chars) : Option (List Tok) := lexGo (s.length + 1) s

/-- An exact, unnormalized fraction `num / den` (`den ≠ 0` holds for
every fraction the evaluator constructs).  Exact fractions model the JS
double arithmetic only where that arithmetic is exact or its rounding
cannot change the observable outcome; every theorem about division
restricts its operands to such a range (see `qDiv` and
`C3_div_amended`). -/
structure Frac where
  num : Int
  den : Int
deriving Repr, DecidableEq

/-- Expression values: `none` models a JS `NaN`/`Infinity` outcome, which
can only arise from a zero divisor and never passes the final integer
check. -/
abbrev QVal := Option Frac

def qNeg : QVal → QVal
  | some a => some ⟨-a.num, a.den⟩
  | none => none

def qAdd : QVal → QVal → QVal
  | some a, some b => some ⟨a.num * b.den + b.num * a.den, a.den * b.den⟩
  | _, _ => none

def qSub : QVal → QVal → QVal
  | some a, some b => some ⟨a.num * b.den - b.num * a.den, a.den * b.den⟩
  | _, _ => none

def qMul : QVal → QVal → QVal
  | some a, some b => some ⟨a.num * b.num, a.den * b.den⟩
  | _, _ => none

/-- JS `/` as an exact fraction; a zero divisor gives `none`
(`Infinity`/`NaN`, which the final integer check rejects).  The source
rounds the true quotient to the nearest double, so this model is
observably faithful only on bounded operands: for integer operands below
2^32 the rounded quotient is an integer exactly when the exact quotient
is (a non-exact quotient `a/b` is at least `1/b > ulp(a/b)/2` away from
every integer), and equals it then; above 2^53 rounding can make a
non-exact quotient pass `Number.isInteger` (e.g. JS evaluates
`13510798882111492/3` to the integer `4503599627370497`).  Theorems
about division carry the corresponding bounds. -/
def qDiv : QVal → QVal → QVal
  | some a, some b =>
    if b.num = 0 then none else some ⟨a.num * b.den, a.den * b.num⟩
  | _, _ => none

/-- JS `%` (remainder, sign of the dividend): `a - b * trunc(a / b)`,
with truncation toward zero (`Int.tdiv` on the cross-multiplied pair). -/
def qRem : QVal → QVal → QVal
  | some a, some b =>
    if b.num = 0 then none
    else
      let t := Int.tdiv (a.num * b.den) (a.den * b.num)
      some ⟨a.num * b.den - b.num * t * a.den, a.den * b.den⟩
  | _, _ => none

/-- Parser modes: full expression, multiplicative level, primary, and the
left-associative continuation loops of the two binary levels. -/
inductive PM where
  | e | m | p | eGo | mGo
deriving Repr, DecidableEq

/-- Recursive-descent evaluation with standard precedence (multiplicative
over additive, parentheses, unary sign), fuelled for termination. -/
def parseF : Nat → PM → QVal → List Tok → Option (QVal × List Tok)
  | 0, _, _, _ => none
  | fuel + 1, PM.p, _, ts =>
    (match ts with
     | Tok.num n :: rest => some (some ⟨(n : Int), 1⟩, rest)
     | Tok.minus :: rest =>
       (match parseF fuel PM.p none rest with
        | some (v, r) => some (qNeg v, r)
        | none => none)
     | Tok.plus :: rest => parseF fuel PM.p none rest
     | Tok.lp :: rest =>
       (match parseF fuel PM.e none rest with
        | some (v, Tok.rp :: r) => some (v, r)
        | _ => none)
     | _ => none)
  | fuel + 1, PM.m, _, ts =>
    (match parseF fuel PM.p none ts with
     | some (v, r) => parseF fuel PM.mGo v r
     | none => none)
  | fuel + 1, PM.mGo, acc, ts =>
    (match ts with
     | Tok.star :: rest =>
       (match parseF fuel PM.p none rest with
        | some (v, r) => parseF fuel PM.mGo (qMul acc v) r
        | none => none)
     | Tok.slash :: rest =>
       (match parseF fuel PM.p none rest with
        | some (v, r) => parseF fuel PM.mGo (qDiv acc v) r
        | none => none)
     | Tok.percent :: rest =>
       (match parseF fuel PM.p none rest with
        | some (v, r) => parseF fuel PM.mGo (qRem acc v) r
        | none => none)
     | _ => some (acc, ts))
  | fuel + 1, PM.e, _, ts =>
    (match parseF fuel PM.m none ts with
     | some (v, r) => parseF fuel PM.eGo v r
     | none => none)
  | fuel + 1, PM.eGo, acc, ts =>
    (match ts with
     | Tok.plus :: rest =>
       (match parseF fuel PM.m none rest with
        | some (v, r) => parseF fuel PM.eGo (qAdd acc v) r
        | none => none)
     | Tok.minus :: rest =>
       (match parseF fuel PM.m none rest with
        | some (v, r) => parseF fuel PM.eGo (qSub acc v) r
        | none => none)
     | _ => some (acc, ts))

/-- `evaluateExpression`: `none` models the thrown
`Invalid expression: <expr>` error. -/
def evaluateExpression (expr : Chars) : Option Int :=
  let normalized := binReplace (hexReplace (jsTrim expr))
  match lexChars normalized with
  | none => none
  | some ts =>
    match parseF (8 * (ts.length + 1)) PM.e none ts with
    | some (some q, []) =>
      if q.den ∣ q.num then some (q.num / q.den) else none
    | _ => none

/-! ## Label dictionary and line tokenization -/

/-- `LabelEntry` record. -/
structure LabelEntry where
  line_number : Nat
  org_value : Int
deriving Repr, DecidableEq

/-- `Record<string, LabelEntry>` with JS property insertion order. -/
abbrev LabelDict := List (Chars × LabelEntry)

def dictLookup : LabelDict → Chars → Option LabelEntry
  | [], _ => none
  | (k2, v) :: t, k => if k2 = k then some v else dictLookup t k

def dictAdd (d : LabelDict) (k : Chars) (v : LabelEntry) : LabelDict :=
  d ++ [(k, v)]

/-- The token scan `lineString.match(/("[^"]*"|'[^']*'|\S+)/g) || []`:
skip whitespace; at a quote with a matching later close-quote take the
quoted span (quotes included) as one token, otherwise take the maximal
run of non-whitespace characters. -/
def tokensGo : Nat → Chars → List Chars
  | 0, _ => []
  | _, [] => []
  | fuel + 1, c :: t =>
    if isJsWS c then tokensGo fuel t
    else if c = '"' || c = '\'' then
      match findClose c t with
      | some (content, rest) => (c :: (content ++ [c])) :: tokensGo fuel rest
      | none =>
        ((c :: t).takeWhile (fun x => !(isJsWS x))) ::
          tokensGo fuel ((c :: t).dropWhile (fun x => !(isJsWS x)))
    else
      ((c :: t).takeWhile (fun x => !(isJsWS x))) ::
        tokensGo fuel ((c :: t).dropWhile (fun x => !(isJsWS x)))

def tokenizeParts (s : Chars) : List Chars := tokensGo (s.length + 1) s

/-! ## The per-instruction helpers of Pass 2 -/

/-- `LSB`: `value & 0xFF` with the source's (dead, see `LSB_total`) range
check. -/
def LSB (value : Int) : Except String Int :=
  let result := jsAnd value 255
  if result < 0 ∨ 255 < result then
    Except.error ("LSB value out of range: " ++ toString result)
  else Except.ok result

/-- `MSB`: `(value & 0xFF00) / 256` with the source's (dead, see
`MSB_total`) range check.  The JS float division is exact here because
the mask clears the low 8 bits. -/
def MSB (value : Int) : Except String Int :=
  let result := Int.tdiv (jsAnd value 65280) 256
  if result < 0 ∨ 255 < result then
    Except.error ("MSB value out of range: " ++ toString result)
  else Except.ok result

/-- `parseInt(s, 8)`: optional sign then the maximal run of octal digits;
no digit at all gives `NaN` (modelled `none`); trailing garbage is
ignored. -/
def jsParseIntOct (s : Chars) : Option Int :=
  let s1 := s.dropWhile isJsWS
  let sign : Int := if headIs (fun c => c = '-') s1 then -1 else 1
  let s2 := if headIs (fun c => c = '-' || c = '+') s1 then s1.drop 1 else s1
  let ds := s2.takeWhile (fun c => '0' ≤ c && c ≤ '7')
  if ds = [] then none
  else some (sign * (ds.foldl (fun acc c => 8 * acc + (c.toNat - 48)) 0 : Nat))

/-- The fixed single-opcode instructions and their opcodes — the
single-byte `case` labels shared by `processPass1Line` and
`processPass2Line` (both switches cover the same 34 mnemonics). -/
def singleTable : List (Chars × Int) :=
  [("NO".toList, 0x08), ("DS".toList, 0x0B), ("SP".toList, 0x0C),
   ("DT".toList, 0x0D), ("RD".toList, 0x0E), ("RE".toList, 0x0F),
   ("SB".toList, 0x10), ("RB".toList, 0x11), ("FV".toList, 0x12),
   ("SV".toList, 0x13), ("GS".toList, 0x14), ("RS".toList, 0x15),
   ("GO".toList, 0x16), ("NE".toList, 0x17), ("AD".toList, 0x18),
   ("SU".toList, 0x19), ("MP".toList, 0x1A), ("DV".toList, 0x1B),
   ("CP".toList, 0x1C), ("NX".toList, 0x1D), ("LS".toList, 0x1F),
   ("PN".toList, 0x20), ("PQ".toList, 0x21), ("PT".toList, 0x22),
   ("NL".toList, 0x23), ("FS".toList, 0x25), ("FE".toList, 0x26),
   ("GL".toList, 0x27), ("IL".toList, 0x2A), ("MT".toList, 0x2B),
   ("XQ".toList, 0x2C), ("WS".toList, 0x2D), ("US".toList, 0x2E),
   ("RT".toList, 0x2F)]

def singleOpcode (instr : Chars) : Option Int := singleTable.lookup instr

/-- Attempt of the text part of `/PC\s+(['"])(.*?)\1/i` right after a `PC`
occurrence: at least one `\s`, then a quote with a later matching same
quote; the content is everything up to the first such close quote. -/
def pcAt (s : Chars) : Option Chars :=
  let j := countWS s
  if j = 0 then none
  else
    match s.drop j with
    | q :: rest =>
      if q = '"' || q = '\'' then (findClose q rest).map (fun pr => pr.1)
      else none
    | [] => none

/-- Unanchored, case-insensitive scan for the leftmost match of
`/PC\s+(['"])(.*?)\1/i`; returns the quoted content. -/
def pcMatch : Nat → Chars → Option Chars
  | 0, _ => none
  | _, [] => none
  | fuel + 1, c1 :: t =>
    match t with
    | c2 :: rest2 =>
      if upChar c1 = 'P' && upChar c2 = 'C' then
        match pcAt rest2 with
        | some content => some content
        | none => pcMatch fuel t
      else pcMatch fuel t
    | [] => none

/-- Match `\s*,\s*(['"])(.*?)\1` at the start of `s`, returning the quoted
content. -/
def bcTail (s : Chars) : Option Chars :=
  match s.drop (countWS s) with
  | ',' :: r =>
    (match r.drop (countWS r) with
     | q :: r2 =>
       if q = '"' || q = '\'' then (findClose q r2).map (fun pr => pr.1)
       else none
     | [] => none)
  | _ => none

/-- Backtracking of the greedy `(\S+)` group of the `BC` pattern: try the
longest prefix of the non-whitespace run first. -/
def bcBack : Nat → Chars → Chars → Option (Chars × Chars)
  | 0, _, _ => none
  | k + 1, run, after =>
    match bcTail (run.drop (k + 1) ++ after) with
    | some content => some (run.take (k + 1), content)
    | none => bcBack k run after

/-- Attempt of `\s+(\S+)\s*,\s*(['"])(.*?)\2` right after a `BC`
occurrence. -/
def bcAt (s : Chars) : Option (Chars × Chars) :=
  let j := countWS s
  if j = 0 then none
  else
    let rest := s.drop j
    let run := rest.takeWhile (fun x => !(isJsWS x))
    bcBack run.length run (rest.drop run.length)

/-- Unanchored, case-insensitive scan for the leftmost match of
`/BC\s+(\S+)\s*,\s*(['"])(.*?)\2/i` (the Pass 1 pattern is identical
except that it does not capture the branch target); returns the branch
target token and the quoted content. -/
def bcMatch : Nat → Chars → Option (Chars × Chars)
  | 0, _ => none
  | _, [] => none
  | fuel + 1, c1 :: t =>
    match t with
    | c2 :: rest2 =>
      if upChar c1 = 'B' && upChar c2 = 'C' then
        match bcAt rest2 with
        | some pr => some pr
        | none => bcMatch fuel t
      else bcMatch fuel t
    | [] => none

/-- The shared forward-branch encoding of the `BV`/`BN`/`BE` cases (and,
with base `0x80`, of `BC`): `*` encodes the constant 0; otherwise the
value is `label_org − current_org − 1`, only the **upper** bound 31 is
checked, and the emitted byte is `base + (0x1F & (value & 0xFF))`. -/
def fwdBranchByte (base : Int) (branchLabel : Chars) (org : Int)
    (dict : LabelDict) : Except String Int :=
  let bv : Except String Int :=
    if branchLabel = ['*'] then Except.ok 0
    else
      match dictLookup dict branchLabel with
      | none => Except.error ("Branch label not found: " ++ String.mk branchLabel)
      | some en =>
        let v := en.org_value - org - 1
        if 31 < v then
          Except.error ("Forward branch value out of range (0-31): " ++ toString v)
        else Except.ok v
  bv.map (fun v => base + jsAnd 31 (jsAnd v 255))

/-! ## Pass 1: per-line processing -/

/-- The instruction/directive dispatch of `processPass1Line` (the `switch`
inside the `try` block): given the upper-cased first token, the token
list, the post-label line text and the current address counter, return
the new counter or the thrown/returned error. -/
def pass1Op (instr : Chars) (parts : List Chars) (line : Chars)
    (org : Int) : Except String Int :=
  if instr = ".ORG".toList then
    match parts with
    | _ :: e :: _ =>
      (match evaluateExpression e with
       | none => Except.error ("Invalid expression: " ++ String.mk e)
       | some newOrg =>
         if newOrg < org then
           Except.error ".ORG value cannot be less than current org_value"
         else Except.ok newOrg)
    | _ => Except.error ".ORG requires an expression"
  else if instr = "SX".toList then
    match parts with
    | _ :: d :: _ =>
      (match jsParseIntOct d with
       | none => Except.error "SX requires a valid octal digit (0-7)"
       | some v =>
         if v < 0 ∨ 7 < v then Except.error "SX requires a valid octal digit (0-7)"
         else Except.ok (org + 1))
    | _ => Except.error "SX requires an octal digit"
  else if (singleOpcode instr).isSome then
    Except.ok (org + 1)
  else if instr = "LB".toList then
    match parts with
    | _ :: e :: _ =>
      (match evaluateExpression e with
       | none => Except.error ("Invalid expression: " ++ String.mk e)
       | some _ => Except.ok (org + 2))
    | _ => Except.error "LB requires an expression"
  else if instr = "LN".toList then
    match parts with
    | _ :: e :: _ =>
      (match evaluateExpression e with
       | none => Except.error ("Invalid expression: " ++ String.mk e)
       | some _ => Except.ok (org + 3))
    | _ => Except.error "LN requires an expression"
  else if instr = "JS".toList ∨ instr = "J".toList then
    match parts with
    | _ :: _ :: _ => Except.ok (org + 2)
    | _ => Except.error (String.mk instr ++ " requires a target")
  else if instr = "BR".toList then
    match parts with
    | _ :: _ :: _ => Except.ok (org + 1)
    | _ => Except.error "BR requires a relative branch target"
  else if instr = "BV".toList ∨ instr = "BN".toList ∨ instr = "BE".toList then
    match parts with
    | _ :: _ :: _ => Except.ok (org + 1)
    | _ => Except.error (String.mk instr ++ " requires a forward branch target")
  else if instr = "PC".toList then
    match parts with
    | _ :: _ :: _ =>
      (match pcMatch (line.length + 1) line with
       | none => Except.error "PC requires quoted text"
       | some content => Except.ok (org + 1 + ((transformText content).2 : Int)))
    | _ => Except.error "PC requires a text string"
  else if instr = "BC".toList then
    match parts with
    | _ :: _ :: _ :: _ =>
      (match bcMatch (line.length + 1) line with
       | none => Except.error "BC requires a forward branch target and quoted text"
       | some pr => Except.ok (org + 1 + ((transformText pr.2).2 : Int)))
    | _ => Except.error "BC requires a forward branch target and text"
  else
    Except.error ("Unknown instruction or directive: " ++ String.mk instr)

/-- Outcome of processing one line in Pass 1 (`{ newOrgValue, error }` of
the source, plus the label dictionary, which the source mutates in
place). -/
structure P1Line where
  newOrg : Int
  dict : LabelDict
  err : Option String
deriving Repr

/-- The part of `processPass1Line` after label handling. -/
def pass1Body (lineString : Chars) (org : Int) (dict : LabelDict) : P1Line :=
  if jsTrim lineString = [] then ⟨org, dict, some "Instruction missing after label"⟩
  else
    match tokenizeParts lineString with
    | [] => ⟨org, dict, some "Empty line after processing"⟩
    | p0 :: restParts =>
      match pass1Op (upChars p0) (p0 :: restParts) lineString org with
      | Except.ok newOrg => ⟨newOrg, dict, none⟩
      | Except.error e => ⟨org, dict, some e⟩

/-- `processPass1Line`. -/
def processPass1Line (lineString : Chars) (lineNumber : Nat) (orgValue : Int)
    (labelDictionary : LabelDict) : P1Line :=
  match extractLabel lineString with
  | ⟨lbl?, rem, none⟩ =>
    (match lbl? with
     | some lbl =>
       if (dictLookup labelDictionary lbl).isSome then
         ⟨orgValue, labelDictionary, some ("Duplicate label: " ++ String.mk lbl)⟩
       else
         pass1Body rem orgValue
           (dictAdd labelDictionary lbl ⟨lineNumber, orgValue⟩)
     | none => pass1Body rem orgValue labelDictionary)
  | ⟨_, _, some e⟩ => ⟨orgValue, labelDictionary, some e⟩

/-- `Pass1Result`. -/
structure Pass1Result where
  labelDictionary : LabelDict
  errorCount : Nat
  errors : List String
  finalOrgValue : Int
deriving Repr

/-- `assemblyCode.split('\n')`. -/
def splitNL : Chars → List Chars
  | [] => [[]]
  | '\n' :: t => [] :: splitNL t
  | c :: t =>
    match splitNL t with
    | l :: ls => (c :: l) :: ls
    | [] => [[c]]

/-- The per-line loop of `pass1`, threading the loop state (dictionary,
error count, error list, address counter). -/
def pass1Go : List Chars → Nat → LabelDict → Nat → List String → Int → Pass1Result
  | [], _, dict, ec, errs, org => ⟨dict, ec, errs, org⟩
  | raw :: rest, ln, dict, ec, errs, org =>
    let line := normalizeLine raw
    if line = [] then pass1Go rest (ln + 1) dict ec errs org
    else
      match processPass1Line line ln org dict with
      | ⟨newOrg, dict2, none⟩ => pass1Go rest (ln + 1) dict2 ec errs newOrg
      | ⟨_, dict2, some e⟩ =>
        pass1Go rest (ln + 1) dict2 (ec + 1)
          (errs ++ ["Line " ++ toString ln ++ ": " ++ e]) org

/-- `pass1`. -/
def pass1 (assemblyCode : Chars) : Pass1Result :=
  pass1Go (splitNL assemblyCode) 1 [] 0 [] 0

/-! ## Pass 2: per-line processing -/

/-- The instruction/directive dispatch of `processPass2Line`: returns the
new address counter and the updated image, or the thrown/returned
error. -/
def pass2Op (instr : Chars) (parts : List Chars) (line : Chars) (org : Int)
    (dict : LabelDict) (img : Image) : Except String (Int × Image) :=
  if instr = ".ORG".toList then
    match parts with
    | _ :: e :: _ =>
      (match evaluateExpression e with
       | none => Except.error ("Invalid expression: " ++ String.mk e)
       | some newOrg =>
         if newOrg < org then
           Except.error ".ORG value cannot be less than current org_value"
         else Except.ok (newOrg, img))
    | _ => Except.error ".ORG requires an expression"
  else if instr = "SX".toList then
    match parts with
    | _ :: d :: _ =>
      (match jsParseIntOct d with
       | none => Except.error "SX requires a valid octal digit (0-7)"
       | some v =>
         if v < 0 ∨ 7 < v then Except.error "SX requires a valid octal digit (0-7)"
         else Except.ok (org + 1, imgWrite img org (0 + v)))
    | _ => Except.error "SX requires an octal digit"
  else
    match singleOpcode instr with
    | some opcode => Except.ok (org + 1, imgWrite img org opcode)
    | none =>
      if instr = "LB".toList then
        match parts with
        | _ :: e :: _ =>
          (match evaluateExpression e with
           | none => Except.error ("Invalid expression: " ++ String.mk e)
           | some value =>
             let img1 := imgWrite img org 0x09
             match LSB value with
             | Except.error m => Except.error m
             | Except.ok lo => Except.ok (org + 2, imgWrite img1 (org + 1) lo))
        | _ => Except.error "LB requires an expression"
      else if instr = "LN".toList then
        match parts with
        | _ :: e :: _ =>
          (match evaluateExpression e with
           | none => Except.error ("Invalid expression: " ++ String.mk e)
           | some value =>
             let img1 := imgWrite img org 0x0A
             match MSB value with
             | Except.error m => Except.error m
             | Except.ok hi =>
               let img2 := imgWrite img1 (org + 1) hi
               match LSB value with
               | Except.error m => Except.error m
               | Except.ok lo => Except.ok (org + 3, imgWrite img2 (org + 2) lo))
        | _ => Except.error "LN requires an expression"
      else if instr = "JS".toList ∨ instr = "J".toList then
        match parts with
        | _ :: tLbl :: _ =>
          let targetLabel := upChars tLbl
          let base : Int := if instr = "JS".toList then 0x30 else 0x38
          (match (if targetLabel = ['*'] then some 0
                  else (dictLookup dict targetLabel).map (fun en => en.org_value)) with
           | none => Except.error ("Target label not found: " ++ String.mk targetLabel)
           | some targetValue =>
             if targetValue < 0 ∨ 2047 < targetValue then
               Except.error ("Target value out of range (0-2047): " ++ toString targetValue)
             else
               match MSB targetValue with
               | Except.error m => Except.error m
               | Except.ok hi =>
                 let img1 := imgWrite img org (base + jsAnd 7 hi)
                 match LSB targetValue with
                 | Except.error m => Except.error m
                 | Except.ok lo => Except.ok (org + 2, imgWrite img1 (org + 1) lo))
        | _ => Except.error (String.mk instr ++ " requires a target")
      else if instr = "BR".toList then
        match parts with
        | _ :: bLbl :: _ =>
          let branchLabel := upChars bLbl
          (match (if branchLabel = ['*'] then Except.ok 0
                  else
                    match dictLookup dict branchLabel with
                    | none =>
                      Except.error ("Branch label not found: " ++ String.mk branchLabel)
                    | some en =>
                      let labelOrg := en.org_value
                      let bv : Int :=
                        if org ≤ labelOrg then labelOrg - org + 32
                        else labelOrg - org + 31
                      if 63 < bv ∨ bv < 0 then
                        Except.error ("Relative branch value out of range (0-63): " ++ toString bv)
                      else Except.ok bv) with
           | Except.error m => Except.error m
           | Except.ok branchValue =>
             Except.ok (org + 1, imgWrite img org (0x40 + jsAnd 63 (jsAnd branchValue 255))))
        | _ => Except.error "BR requires a relative branch target"
      else if instr = "BV".toList then
        match parts with
        | _ :: bLbl :: _ =>
          (match fwdBranchByte 0xA0 (upChars bLbl) org dict with
           | Except.error m => Except.error m
           | Except.ok b => Except.ok (org + 1, imgWrite img org b))
        | _ => Except.error "BV requires a forward branch target"
      else if instr = "BN".toList then
        match parts with
        | _ :: bLbl :: _ =>
          (match fwdBranchByte 0xC0 (upChars bLbl) org dict with
           | Except.error m => Except.error m
           | Except.ok b => Except.ok (org + 1, imgWrite img org b))
        | _ => Except.error "BN requires a forward branch target"
      else if instr = "BE".toList then
        match parts with
        | _ :: bLbl :: _ =>
          (match fwdBranchByte 0xE0 (upChars bLbl) org dict with
           | Except.error m => Except.error m
           | Except.ok b => Except.ok (org + 1, imgWrite img org b))
        | _ => Except.error "BE requires a forward branch target"
      else if instr = "PC".toList then
        match parts with
        | _ :: _ :: _ =>
          (match pcMatch (line.length + 1) line with
           | none => Except.error "PC requires quoted text"
           | some content =>
             let bs := (transformText content).1
             let img1 := imgWrite img org 0x24
             Except.ok (org + 1 + (bs.length : Int), writeBytes img1 (org + 1) bs))
        | _ => Except.error "PC requires a text string"
      else if instr = "BC".toList then
        match parts with
        | _ :: _ :: _ :: _ =>
          (match bcMatch (line.length + 1) line with
           | none => Except.error "BC requires a forward branch target and quoted text"
           | some pr =>
             match fwdBranchByte 0x80 (upChars pr.1) org dict with
             | Except.error m => Except.error m
             | Except.ok b =>
               let bs := (transformText pr.2).1
               let img1 := imgWrite img org b
               Except.ok (org + 1 + (bs.length : Int), writeBytes img1 (org + 1) bs))
        | _ => Except.error "BC requires a forward branch target and text"
      else
        Except.error ("Unknown instruction or directive: " ++ String.mk instr)

/-- Outcome of processing one line in Pass 2. -/
structure P2Line where
  newOrg : Int
  img : Image
  err : Option String

/-- The part of `processPass2Line` after label handling. -/
def pass2Body (lineString : Chars) (org : Int) (dict : LabelDict)
    (img : Image) : P2Line :=
  if jsTrim lineString = [] then ⟨org, img, some "Instruction missing after label"⟩
  else
    match tokenizeParts lineString with
    | [] => ⟨org, img, some "Empty line after processing"⟩
    | p0 :: restParts =>
      match pass2Op (upChars p0) (p0 :: restParts) lineString org dict img with
      | Except.ok (newOrg, img2) => ⟨newOrg, img2, none⟩
      | Except.error e => ⟨org, img, some e⟩

/-- `processPass2Line`. -/
def processPass2Line (lineString : Chars) (lineNumber : Nat) (orgValue : Int)
    (labelDictionary : LabelDict) (machineCode : Image) : P2Line :=
  match extractLabel lineString with
  | ⟨lbl?, rem, none⟩ =>
    (match lbl? with
     | some lbl =>
       if (dictLookup labelDictionary lbl).isNone then
         ⟨orgValue, machineCode,
          some ("Label not found in dictionary: " ++ String.mk lbl)⟩
       else pass2Body rem orgValue labelDictionary machineCode
     | none => pass2Body rem orgValue labelDictionary machineCode)
  | ⟨_, _, some e⟩ => ⟨orgValue, machineCode, some e⟩

/-- `Pass2Result`. -/
structure Pass2Result where
  machineCode : Image
  errorCount : Nat
  errors : List String
  finalOrgValue : Int

/-- The per-line loop of `pass2`. -/
def pass2Go : List Chars → Nat → Image → Nat → List String → Int → LabelDict → Pass2Result
  | [], _, img, ec, errs, org, _ => ⟨img, ec, errs, org⟩
  | raw :: rest, ln, img, ec, errs, org, dict =>
    let line := normalizeLine raw
    if line = [] then pass2Go rest (ln + 1) img ec errs org dict
    else
      match processPass2Line line ln org dict img with
      | ⟨newOrg, img2, none⟩ => pass2Go rest (ln + 1) img2 ec errs newOrg dict
      | ⟨_, img2, some e⟩ =>
        pass2Go rest (ln + 1) img2 (ec + 1)
          (errs ++ ["Line " ++ toString ln ++ ": " ++ e]) org dict

/-- `pass2`. -/
def pass2 (assemblyCode : Chars) (labelDictionary : LabelDict) : Pass2Result :=
  pass2Go (splitNL assemblyCode) 1 initImage 0 [] 0 labelDictionary

/-! ## Helper lemmas -/

theorem land_ff00 (x : Nat) : Nat.land x 65280 = x / 256 % 256 * 256 := by
  have h1 : (65280 : Nat) = 255 <<< 8 := by decide
  have h2 : x / 256 % 256 * 256 = ((x >>> 8) % 2 ^ 8) <<< 8 := by
    rw [Nat.shiftLeft_eq, Nat.shiftRight_eq_div_pow]
    norm_num
  have h3 : Nat.land x 65280 = x &&& (255 <<< 8) := by rw [← h1]; rfl
  rw [h3, h2]
  apply Nat.eq_of_testBit_eq
  intro i
  have h255 : (255 : Nat) = 2 ^ 8 - 1 := by decide
  rw [Nat.testBit_and, Nat.testBit_shiftLeft, Nat.testBit_shiftLeft,
    Nat.testBit_mod_two_pow, Nat.testBit_shiftRight, h255,
    Nat.testBit_two_pow_sub_one]
  by_cases h8 : 8 ≤ i
  · have hi : 8 + (i - 8) = i := by omega
    rw [hi]
    cases hxb : x.testBit i <;> simp [h8]
  · simp [h8]

theorem jsAnd_255 (v : Int) : jsAnd v 255 = v % 256 := by
  unfold jsAnd toUint32 fromInt32
  have h1 : (((255 : Int)) % 4294967296).toNat = 255 := by decide
  rw [h1]
  have h2 : Nat.land (v % 4294967296).toNat 255 = (v % 4294967296).toNat % 256 := by
    have := Nat.and_pow_two_sub_one_eq_mod (v % 4294967296).toNat 8
    norm_num at this
    exact this
  rw [h2]
  have h3 : (v % 4294967296).toNat % 256 < 2147483648 := by omega
  rw [if_pos h3]
  omega

theorem jsAnd_ff00 (v : Int) : jsAnd v 65280 = v % 65536 - v % 256 := by
  unfold jsAnd toUint32 fromInt32
  have h1 : (((65280 : Int)) % 4294967296).toNat = 65280 := by decide
  rw [h1, land_ff00]
  have h3 : (v % 4294967296).toNat / 256 % 256 * 256 < 2147483648 := by omega
  rw [if_pos h3]
  omega

theorem jsAnd_1f (v : Int) : jsAnd 31 v = v % 4294967296 % 32 := by
  unfold jsAnd toUint32 fromInt32
  have h1 : (((31 : Int)) % 4294967296).toNat = 31 := by decide
  rw [h1]
  have hcomm : Nat.land 31 (v % 4294967296).toNat = Nat.land (v % 4294967296).toNat 31 :=
    Nat.and_comm 31 ((v % 4294967296).toNat)
  rw [hcomm]
  have h2 : Nat.land (v % 4294967296).toNat 31 = (v % 4294967296).toNat % 32 := by
    have := Nat.and_pow_two_sub_one_eq_mod (v % 4294967296).toNat 5
    norm_num at this
    exact this
  rw [h2]
  have h3 : (v % 4294967296).toNat % 32 < 2147483648 := by omega
  rw [if_pos h3]
  omega

theorem jsAnd_3f (v : Int) : jsAnd 63 v = v % 4294967296 % 64 := by
  unfold jsAnd toUint32 fromInt32
  have h1 : (((63 : Int)) % 4294967296).toNat = 63 := by decide
  rw [h1]
  have hcomm : Nat.land 63 (v % 4294967296).toNat = Nat.land (v % 4294967296).toNat 63 :=
    Nat.and_comm 63 ((v % 4294967296).toNat)
  rw [hcomm]
  have h2 : Nat.land (v % 4294967296).toNat 63 = (v % 4294967296).toNat % 64 := by
    have := Nat.and_pow_two_sub_one_eq_mod (v % 4294967296).toNat 6
    norm_num at this
    exact this
  rw [h2]
  have h3 : (v % 4294967296).toNat % 64 < 2147483648 := by omega
  rw [if_pos h3]
  omega

/-- The range check inside `LSB` can never fire: masking with `0xFF`
always produces a value in 0–255.  `LSB` returns the value mod 256. -/
theorem LSB_eq (v : Int) : LSB v = Except.ok (v % 256) := by
  unfold LSB
  rw [jsAnd_255]
  have h : ¬ (v % 256 < 0 ∨ 255 < v % 256) := by omega
  rw [if_neg h]

/-- The range check inside `MSB` can never fire: masking with `0xFF00`
always produces a value in 0–65280.  `MSB` returns the second-lowest
byte of the value's two's-complement form. -/
theorem MSB_eq (v : Int) : MSB v = Except.ok (v % 65536 / 256) := by
  unfold MSB
  rw [jsAnd_ff00]
  have hsub : v % 65536 - v % 256 = v % 65536 / 256 * 256 := by omega
  have htd : Int.tdiv (v % 65536 / 256 * 256) 256 = v % 65536 / 256 := by
    apply Int.mul_tdiv_cancel
    norm_num
  rw [hsub, htd]
  have h : ¬ (v % 65536 / 256 < 0 ∨ 255 < v % 65536 / 256) := by omega
  rw [if_neg h]

theorem imgWrite_ne (img : Image) (i v : Int) (j : Nat) (h : (j : Int) ≠ i) :
    imgWrite img i v j = img j := by
  unfold imgWrite
  split
  · simp [h]
  · rfl

theorem writeBytes_outside (bs : List Int) (img : Image) (i : Int) (j : Nat)
    (h : (j : Int) < i ∨ i + bs.length ≤ (j : Int)) :
    writeBytes img i bs j = img j := by
  induction bs generalizing img i with
  | nil => rfl
  | cons b rest ih =>
    show writeBytes (imgWrite img i b) (i + 1) rest j = img j
    rw [ih (imgWrite img i b) (i + 1) (by simp at h ⊢; omega)]
    exact imgWrite_ne img i b j (by simp at h; omega)

theorem imgWrite_oob (img : Image) (i v : Int) (h : 65536 ≤ i) :
    imgWrite img i v = img := by
  unfold imgWrite
  rw [if_neg]
  omega

theorem imgWrite_read (img : Image) (i v : Int) (j : Nat) :
    imgWrite img i v j =
      if 0 ≤ i ∧ i < 65536 ∧ (j : Int) = i then v % 256 else img j := by
  unfold imgWrite
  by_cases hb : 0 ≤ i ∧ i < 65536
  · rw [if_pos hb]
    by_cases hj : (j : Int) = i
    · rw [if_pos hj, if_pos ⟨hb.1, hb.2, hj⟩]
    · rw [if_neg hj, if_neg (by tauto)]
  · rw [if_neg hb, if_neg (by tauto)]

/-! ## Claim theorems -/

/-- C1: for the source `:START NO\nNO\nJ START`, Pass 1 produces the label
dictionary `{START ↦ {line 1, org 0}}`, final address 4 and zero
diagnostics, and Pass 2 on that source with that dictionary produces zero
diagnostics and an image whose first four bytes are `08 08 38 00`, all
remaining bytes zero. -/
theorem C1_end_to_end :
    (pass1 (":START NO\nNO\nJ START").toList).labelDictionary =
      [(("START").toList, ⟨1, 0⟩)] ∧
    (pass1 (":START NO\nNO\nJ START").toList).errorCount = 0 ∧
    (pass1 (":START NO\nNO\nJ START").toList).errors = [] ∧
    (pass1 (":START NO\nNO\nJ START").toList).finalOrgValue = 4 ∧
    (pass2 (":START NO\nNO\nJ START").toList
        [(("START").toList, ⟨1, 0⟩)]).errorCount = 0 ∧
    (pass2 (":START NO\nNO\nJ START").toList
        [(("START").toList, ⟨1, 0⟩)]).errors = [] ∧
    (pass2 (":START NO\nNO\nJ START").toList
        [(("START").toList, ⟨1, 0⟩)]).machineCode 0 = 0x08 ∧
    (pass2 (":START NO\nNO\nJ START").toList
        [(("START").toList, ⟨1, 0⟩)]).machineCode 1 = 0x08 ∧
    (pass2 (":START NO\nNO\nJ START").toList
        [(("START").toList, ⟨1, 0⟩)]).machineCode 2 = 0x38 ∧
    (pass2 (":START NO\nNO\nJ START").toList
        [(("START").toList, ⟨1, 0⟩)]).machineCode 3 = 0x00 ∧
    ∀ j : Nat, 4 ≤ j →
      (pass2 (":START NO\nNO\nJ START").toList
        [(("START").toList, ⟨1, 0⟩)]).machineCode j = 0 := by
  have himg : (pass2 (":START NO\nNO\nJ START").toList
      [(("START").toList, ⟨1, 0⟩)]).machineCode =
      imgWrite (imgWrite (imgWrite (imgWrite initImage 0 8) 1 8) 2 56) 3 0 := rfl
  refine ⟨by decide, by decide, by decide, by decide, by decide, by decide,
    by decide, by decide, by decide, by decide, ?_⟩
  intro j hj
  rw [himg, imgWrite_ne _ _ _ _ (by omega), imgWrite_ne _ _ _ _ (by omega),
    imgWrite_ne _ _ _ _ (by omega), imgWrite_ne _ _ _ _ (by omega)]
  rfl

/-- C6 (against the failing input): `extractLabel` on `:_AB NO` succeeds
with label `_AB` and no diagnostic — the main pattern `[A-Z_][A-Z0-9_]{0,7}`
accepts an underscore-initial label, against the project's own
documentation — while the specific underscore diagnostic is reachable only
from the fallback classification (second conjunct, a label pattern
failure on a line starting `:_`). -/
theorem C6_underscore_label_eval :
    extractLabel ((":_AB NO").toList) =
      ⟨some (("_AB").toList), (("NO").toList), none⟩ ∧
    extractLabel ((":_").toList) =
      ⟨none, ((":_").toList),
       some "Label cannot start with underscore after colon"⟩ := by
  decide

/-- C3 (counterexample): evaluating the division `7/2` does **not**
succeed with the truncated quotient 3 — the JS evaluation yields 3.5,
`Number.isInteger` fails, and the evaluator throws `Invalid expression`,
modelled as `none`. -/
theorem C3_div_counterexample :
    evaluateExpression (("7/2").toList) = none ∧
    ¬ evaluateExpression (("7/2").toList) = some 3 := by
  decide

/-- C4 (counterexample): a `BV` to a label **behind** the current position
(branch value `0 − 2 − 1 = −3 < 0`) produces **no** diagnostic; the byte
`0xA0 + (0x1F & (−3 & 0xFF)) = 0xBD` is silently emitted and the counter
advances. -/
theorem C4_negative_branch_counterexample :
    ((0 : Int) - 2 - 1 < 0) ∧
    (processPass2Line (("BV BACK").toList) 1 2
      [(("BACK").toList, ⟨1, 0⟩)] initImage).err = none ∧
    (processPass2Line (("BV BACK").toList) 1 2
      [(("BACK").toList, ⟨1, 0⟩)] initImage).newOrg = 3 ∧
    (processPass2Line (("BV BACK").toList) 1 2
      [(("BACK").toList, ⟨1, 0⟩)] initImage).img 2 = 0xBD := by
  refine ⟨by decide, by decide, by decide, by decide⟩

/-- C5 (counterexample): `LN 65536` — a value outside 0–65535 — produces
**no** range diagnostic: the masks wrap it and the bytes `0A 00 00` are
silently emitted. -/
theorem C5_LN_wrap_counterexample :
    (processPass2Line (("LN 65536").toList) 1 0 [] initImage).err = none ∧
    (processPass2Line (("LN 65536").toList) 1 0 [] initImage).newOrg = 3 ∧
    (processPass2Line (("LN 65536").toList) 1 0 [] initImage).img 0 = 0x0A ∧
    (processPass2Line (("LN 65536").toList) 1 0 [] initImage).img 1 = 0 ∧
    (processPass2Line (("LN 65536").toList) 1 0 [] initImage).img 2 = 0 := by
  refine ⟨by decide, by decide, by decide, by decide, by decide⟩

/-- C9 (counterexample): `.ORG 65535` followed by `LN 5` makes Pass 2
attempt writes at 65535, 65536 and 65537; the run reports **zero**
diagnostics, the counter advances to 65538, the in-range byte is written
and the out-of-range bytes are silently dropped. -/
theorem C9_oob_write_counterexample :
    (pass2 ((".ORG 65535\nLN 5").toList) []).errorCount = 0 ∧
    (pass2 ((".ORG 65535\nLN 5").toList) []).errors = [] ∧
    (pass2 ((".ORG 65535\nLN 5").toList) []).finalOrgValue = 65538 ∧
    (pass2 ((".ORG 65535\nLN 5").toList) []).machineCode 65535 = 0x0A := by
  refine ⟨by decide, by decide, by decide, by decide⟩

theorem lastD_cons (a d : Int) (l : List Int) :
    (a :: l).getLastD d = l.getLastD a := by
  cases l with
  | nil => rfl
  | cons b t =>
    rw [List.getLastD_eq_getLast?, List.getLastD_eq_getLast?,
      List.getLast?_cons_cons]
    have h : (b :: t).getLast?.isSome := by
      rw [List.getLast?_isSome]
      simp
    rcases Option.isSome_iff_exists.mp h with ⟨x, hx⟩
    rw [hx]
    rfl

theorem setLastHigh_ne_nil (l : List Int) (h : l ≠ []) : setLastHigh l ≠ [] := by
  cases l with
  | nil => exact absurd rfl h
  | cons a t => cases t <;> simp [setLastHigh]

theorem setLastHigh_getLastD (l : List Int) (h : l ≠ []) :
    ∀ d : Int, (setLastHigh l).getLastD d = jsOr (l.getLastD d) 128 := by
  induction l with
  | nil => exact absurd rfl h
  | cons a t ih =>
    intro d
    cases t with
    | nil => rfl
    | cons b t2 =>
      show ((a :: setLastHigh (b :: t2)).getLastD d) = _
      rw [lastD_cons a d (setLastHigh (b :: t2)), lastD_cons a d (b :: t2),
        ih (by simp) a]

theorem textScan_ne_nil (s : Chars) (h : s ≠ []) : textScan s ≠ [] := by
  cases s with
  | nil => exact absurd rfl h
  | cons c t =>
    cases t with
    | nil => simp [textScan]
    | cons c2 t2 =>
      show textScan (c :: c2 :: t2) ≠ []
      unfold textScan
      split
      · simp
      · split <;> simp

theorem char_toNat_lt (c : Char) : c.toNat < 1114112 := by
  have h := c.valid
  rcases h with h | h
  · exact Nat.lt_trans h (by norm_num)
  · exact h.2

theorem textScan_bounds (s : Chars) : ∀ x ∈ textScan s, 0 ≤ x ∧ x < 2147483648 := by
  induction s using textScan.induct with
  | case1 => intro x hx; simp [textScan] at hx
  | case2 c =>
    intro x hx
    simp [textScan] at hx
    subst hx
    have := char_toNat_lt c
    omega
  | case3 c1 c2 rest hcond ih =>
    intro x hx
    unfold textScan at hx
    rw [if_pos hcond] at hx
    rcases List.mem_cons.mp hx with hx | hx
    · have h1 : '@' ≤ c1 := by
        rcases Bool.and_eq_true_iff.mp hcond with ⟨h, _⟩
        rcases Bool.and_eq_true_iff.mp h with ⟨h1, _⟩
        exact of_decide_eq_true h1
      have h2 : ('@' : Char).toNat ≤ c1.toNat := h1
      have h3 := char_toNat_lt c1
      have h4 : ('@' : Char).toNat = 64 := rfl
      subst hx
      omega
    · exact ih x hx
  | case4 c1 c2 rest hcond1 hcond2 ih =>
    intro x hx
    unfold textScan at hx
    rw [if_neg hcond1, if_pos hcond2] at hx
    rcases List.mem_cons.mp hx with hx | hx
    · subst hx
      norm_num
    · exact ih x hx
  | case5 c1 c2 rest hcond1 hcond2 ih =>
    intro x hx
    unfold textScan at hx
    rw [if_neg hcond1, if_neg hcond2] at hx
    rcases List.mem_cons.mp hx with hx | hx
    · subst hx
      have := char_toNat_lt c1
      omega
    · exact ih x hx

theorem jsOr_128 (v : Int) (h0 : 0 ≤ v) (h1 : v < 2147483648) :
    0 ≤ jsOr v 128 ∧ (jsOr v 128).toNat.testBit 7 = true := by
  unfold jsOr toUint32 fromInt32
  have hv : v % 4294967296 = v := Int.emod_eq_of_lt h0 (by omega)
  have h128 : ((128 : Int) % 4294967296).toNat = 128 := by decide
  rw [hv, h128]
  have hlt : Nat.lor v.toNat 128 < 2147483648 := by
    have : v.toNat < 2 ^ 31 := by omega
    have h2 : (128 : Nat) < 2 ^ 31 := by norm_num
    have := Nat.or_lt_two_pow this h2
    norm_num at this ⊢
    exact this
  rw [if_pos hlt]
  refine ⟨by positivity, ?_⟩
  rw [Int.toNat_natCast]
  show (v.toNat ||| 128).testBit 7 = true
  rw [Nat.testBit_or]
  have h7 : Nat.testBit 128 7 = true := by decide
  simp [h7]

/-- C8: for every non-empty text, the transform produces a non-empty byte
sequence whose reported length is the byte count, and the last output
byte has bit 7 set by the final bitwise OR with 128; `M^Q` transforms to
exactly `0x0D 0xD1`, `^^` collapses to one caret byte (with bit 7 set),
and `@^` collapses to code 0 (with bit 7 set). -/
theorem C8_text_transform :
    (∀ s : Chars, s ≠ [] →
       (transformText s).1 ≠ [] ∧
       (transformText s).2 = (transformText s).1.length ∧
       ((transformText s).1.getLastD 0).toNat.testBit 7 = true) ∧
    transformText (("M^Q").toList) = ([13, 209], 2) ∧
    transformText (("^^").toList) = ([222], 1) ∧
    transformText (("@^").toList) = ([128], 1) := by
  refine ⟨?_, by decide, by decide, by decide⟩
  intro s hs
  have hscan := textScan_ne_nil s hs
  refine ⟨setLastHigh_ne_nil _ hscan, rfl, ?_⟩
  show ((setLastHigh (textScan s)).getLastD 0).toNat.testBit 7 = true
  rw [setLastHigh_getLastD _ hscan 0]
  have hmem : (textScan s).getLastD 0 ∈ textScan s := by
    cases hx : textScan s with
    | nil => exact absurd hx hscan
    | cons a t =>
      rw [lastD_cons]
      have := List.getLastD_mem_cons t a
      simpa using this
  have hb := textScan_bounds s _ hmem
  exact (jsOr_128 _ hb.1 hb.2).2

/-- Witness for C8 at the concrete non-empty text `M^Q`. -/
theorem C8_text_transform_witness :
    (transformText (("M^Q").toList)).1 ≠ [] ∧
    (transformText (("M^Q").toList)).2 = (transformText (("M^Q").toList)).1.length ∧
    ((transformText (("M^Q").toList)).1.getLastD 0).toNat.testBit 7 = true :=
  C8_text_transform.1 (("M^Q").toList) (by decide)

/-- C3 (amended): for an expression operand that lexes as one integer
divided by another, with both operands below 2^32 (so that IEEE double
rounding cannot turn a non-exact quotient into an integer, nor perturb
an exact one), evaluation succeeds with the exact quotient precisely
when the divisor is nonzero and divides the dividend evenly; otherwise
(non-exact quotient, or zero divisor) the result is the
`Invalid expression` diagnostic.  Division never truncates toward zero.
(For operands at or above 2^53 the double rounding of the source can
instead silently accept a rounded non-exact quotient; that regime is
outside this statement.) -/
theorem C3_div_amended (expr : Chars) (a b : Nat)
    (ha : a < 4294967296) (hb32 : b < 4294967296)
    (hlex : lexChars (binReplace (hexReplace (jsTrim expr))) =
      some [Tok.num a, Tok.slash, Tok.num b]) :
    evaluateExpression expr =
      if b ≠ 0 ∧ (b : Int) ∣ (a : Int) then some ((a : Int) / (b : Int))
      else none := by
  show (match lexChars (binReplace (hexReplace (jsTrim expr))) with
    | none => none
    | some ts =>
      match parseF (8 * (ts.length + 1)) PM.e none ts with
      | some (some q, []) => if q.den ∣ q.num then some (q.num / q.den) else none
      | _ => none) = _
  rw [hlex]
  have hp : parseF (8 * ([Tok.num a, Tok.slash, Tok.num b].length + 1)) PM.e none
      [Tok.num a, Tok.slash, Tok.num b] =
      some (qDiv (some ⟨(a : Int), 1⟩) (some ⟨(b : Int), 1⟩), []) := rfl
  show (match parseF (8 * ([Tok.num a, Tok.slash, Tok.num b].length + 1)) PM.e none
      [Tok.num a, Tok.slash, Tok.num b] with
    | some (some q, []) => if q.den ∣ q.num then some (q.num / q.den) else none
    | _ => none) = _
  rw [hp]
  by_cases hb : (b : Int) = 0
  · rw [show qDiv (some ⟨(a : Int), 1⟩) (some ⟨(b : Int), 1⟩) = none from by
      simp [qDiv, hb]]
    have hbz : b = 0 := by exact_mod_cast hb
    simp [hbz]
  · rw [show qDiv (some ⟨(a : Int), 1⟩) (some ⟨(b : Int), 1⟩) =
      some ⟨(a : Int) * 1, 1 * (b : Int)⟩ from by simp [qDiv, hb]]
    have hbz : b ≠ 0 := by
      intro h
      exact hb (by exact_mod_cast h)
    simp only [mul_one, one_mul]
    by_cases hdvd : (b : Int) ∣ (a : Int)
    · rw [if_pos hdvd, if_pos ⟨hbz, hdvd⟩]
    · rw [if_neg hdvd, if_neg (by tauto)]

/-- Witness for C3 (amended) at the exact division `6/2` (and, checked
directly, the result is 3). -/
theorem C3_div_amended_witness :
    (evaluateExpression (("6/2").toList) =
      if (2 : Nat) ≠ 0 ∧ (2 : Int) ∣ (6 : Int) then some ((6 : Int) / (2 : Int))
      else none) ∧
    evaluateExpression (("6/2").toList) = some 3 :=
  ⟨C3_div_amended (("6/2").toList) 6 2 (by norm_num) (by norm_num) (by decide),
   by decide⟩

/-- C7: in both passes, a `.ORG` whose expression evaluates below the
current counter produces the dedicated diagnostic and (at the engine
level) does not yield a new counter, while a successful `.ORG` sets the
counter to the evaluated value, which is never below the current counter;
concretely, `.ORG 100` then `.ORG 50` yields exactly one diagnostic on
line 2 and a final counter of 100 in both passes. -/
theorem C7_org_never_backward :
    (∀ (e line : Chars) (org v : Int), evaluateExpression e = some v →
      (v < org →
        pass1Op ((".ORG").toList) [(".ORG").toList, e] line org =
          Except.error ".ORG value cannot be less than current org_value") ∧
      (org ≤ v →
        pass1Op ((".ORG").toList) [(".ORG").toList, e] line org = Except.ok v)) ∧
    (∀ (e line : Chars) (org v : Int) (dict : LabelDict) (img : Image),
      evaluateExpression e = some v →
      (v < org →
        pass2Op ((".ORG").toList) [(".ORG").toList, e] line org dict img =
          Except.error ".ORG value cannot be less than current org_value") ∧
      (org ≤ v →
        pass2Op ((".ORG").toList) [(".ORG").toList, e] line org dict img =
          Except.ok (v, img))) ∧
    (pass1 ((".ORG 100\n.ORG 50").toList)).errors =
      ["Line 2: .ORG value cannot be less than current org_value"] ∧
    (pass1 ((".ORG 100\n.ORG 50").toList)).errorCount = 1 ∧
    (pass1 ((".ORG 100\n.ORG 50").toList)).finalOrgValue = 100 ∧
    (pass2 ((".ORG 100\n.ORG 50").toList) []).errors =
      ["Line 2: .ORG value cannot be less than current org_value"] ∧
    (pass2 ((".ORG 100\n.ORG 50").toList) []).errorCount = 1 ∧
    (pass2 ((".ORG 100\n.ORG 50").toList) []).finalOrgValue = 100 := by
  refine ⟨?_, ?_, by decide, by decide, by decide, by decide, by decide, by decide⟩
  · intro e line org v hev
    constructor <;> intro h
    · show (match evaluateExpression e with
        | none => Except.error ("Invalid expression: " ++ String.mk e)
        | some newOrg =>
          if newOrg < org then
            Except.error ".ORG value cannot be less than current org_value"
          else Except.ok newOrg) = _
      rw [hev]
      show (if v < org then
          (Except.error ".ORG value cannot be less than current org_value" :
            Except String Int)
        else Except.ok v) = _
      rw [if_pos h]
    · show (match evaluateExpression e with
        | none => Except.error ("Invalid expression: " ++ String.mk e)
        | some newOrg =>
          if newOrg < org then
            Except.error ".ORG value cannot be less than current org_value"
          else Except.ok newOrg) = _
      rw [hev]
      show (if v < org then
          (Except.error ".ORG value cannot be less than current org_value" :
            Except String Int)
        else Except.ok v) = _
      rw [if_neg (not_lt.mpr h)]
  · intro e line org v dict img hev
    constructor <;> intro h
    · show (match evaluateExpression e with
        | none => Except.error ("Invalid expression: " ++ String.mk e)
        | some newOrg =>
          if newOrg < org then
            Except.error ".ORG value cannot be less than current org_value"
          else Except.ok (newOrg, img)) = _
      rw [hev]
      show (if v < org then
          (Except.error ".ORG value cannot be less than current org_value" :
            Except String (Int × Image))
        else Except.ok (v, img)) = _
      rw [if_pos h]
    · show (match evaluateExpression e with
        | none => Except.error ("Invalid expression: " ++ String.mk e)
        | some newOrg =>
          if newOrg < org then
            Except.error ".ORG value cannot be less than current org_value"
          else Except.ok (newOrg, img)) = _
      rw [hev]
      show (if v < org then
          (Except.error ".ORG value cannot be less than current org_value" :
            Except String (Int × Image))
        else Except.ok (v, img)) = _
      rw [if_neg (not_lt.mpr h)]

/-- Witness for C7 at the concrete backward `.ORG` (counter 100, value
50) in Pass 1. -/
theorem C7_org_never_backward_witness :
    pass1Op ((".ORG").toList) [(".ORG").toList, ("50").toList] [] 100 =
      Except.error ".ORG value cannot be less than current org_value" :=
  (C7_org_never_backward.1 (("50").toList) [] 100 50 (by decide)).1 (by decide)

theorem fwdBranchByte_label (base lorg org : Int) (lnum : Nat) :
    fwdBranchByte base (("L").toList) org [(("L").toList, ⟨lnum, lorg⟩)] =
      if 31 < lorg - org - 1 then
        Except.error ("Forward branch value out of range (0-31): " ++
          toString (lorg - org - 1))
      else Except.ok (base + jsAnd 31 (jsAnd (lorg - org - 1) 255)) := by
  show Except.map (fun v => base + jsAnd 31 (jsAnd v 255))
      (if 31 < lorg - org - 1 then
        Except.error ("Forward branch value out of range (0-31): " ++
          toString (lorg - org - 1))
      else Except.ok (lorg - org - 1)) = _
  by_cases h : 31 < lorg - org - 1
  · rw [if_pos h, if_pos h]
    rfl
  · rw [if_neg h, if_neg h]
    rfl

theorem pass2Op_BV_red (p0 bLbl line : Chars) (org : Int) (dict : LabelDict)
    (img : Image) :
    pass2Op (("BV").toList) [p0, bLbl] line org dict img =
      (match fwdBranchByte 160 (upChars bLbl) org dict with
       | Except.error m => Except.error m
       | Except.ok b => Except.ok (org + 1, imgWrite img org b)) := rfl

theorem pass2Op_BN_red (p0 bLbl line : Chars) (org : Int) (dict : LabelDict)
    (img : Image) :
    pass2Op (("BN").toList) [p0, bLbl] line org dict img =
      (match fwdBranchByte 192 (upChars bLbl) org dict with
       | Except.error m => Except.error m
       | Except.ok b => Except.ok (org + 1, imgWrite img org b)) := rfl

theorem pass2Op_BE_red (p0 bLbl line : Chars) (org : Int) (dict : LabelDict)
    (img : Image) :
    pass2Op (("BE").toList) [p0, bLbl] line org dict img =
      (match fwdBranchByte 224 (upChars bLbl) org dict with
       | Except.error m => Except.error m
       | Except.ok b => Except.ok (org + 1, imgWrite img org b)) := rfl

theorem fwd_byte_mod (base v : Int) : base + jsAnd 31 (jsAnd v 255) = base + v % 32 := by
  rw [jsAnd_255, jsAnd_1f]
  omega

/-- C4 (amended): for `BV`/`BN`/`BE` with a label operand and branch value
`v = label_org − current_org − 1`, only the **upper** bound is validated:
`v > 31` produces the out-of-range diagnostic, while every `v ≤ 31` —
including every negative `v` — succeeds and emits the single byte
`base OR (v AND 0xFF AND 0x1F)`, i.e. `base + (v mod 32)` with
two's-complement wrapping; the counter behaviour is the dispatch
result (`ok` advances by 1, `error` leaves it to the caller unchanged). -/
theorem C4_forward_branch_amended (lorg : Int) (org : Nat) (lnum : Nat)
    (line : Chars) (img : Image) (hlt : org < 65536) :
    (31 < lorg - (org : Int) - 1 →
      (pass2Op (("BV").toList) [(("BV").toList), ("L").toList] line org
          [(("L").toList, ⟨lnum, lorg⟩)] img =
        Except.error ("Forward branch value out of range (0-31): " ++
          toString (lorg - (org : Int) - 1)) ∧
       pass2Op (("BN").toList) [(("BN").toList), ("L").toList] line org
          [(("L").toList, ⟨lnum, lorg⟩)] img =
        Except.error ("Forward branch value out of range (0-31): " ++
          toString (lorg - (org : Int) - 1)) ∧
       pass2Op (("BE").toList) [(("BE").toList), ("L").toList] line org
          [(("L").toList, ⟨lnum, lorg⟩)] img =
        Except.error ("Forward branch value out of range (0-31): " ++
          toString (lorg - (org : Int) - 1)))) ∧
    (lorg - (org : Int) - 1 ≤ 31 →
      (pass2Op (("BV").toList) [(("BV").toList), ("L").toList] line org
          [(("L").toList, ⟨lnum, lorg⟩)] img =
        Except.ok ((org : Int) + 1,
          imgWrite img org (160 + jsAnd 31 (jsAnd (lorg - (org : Int) - 1) 255))) ∧
       imgWrite img org (160 + jsAnd 31 (jsAnd (lorg - (org : Int) - 1) 255)) org =
         160 + (lorg - (org : Int) - 1) % 32 ∧
       pass2Op (("BN").toList) [(("BN").toList), ("L").toList] line org
          [(("L").toList, ⟨lnum, lorg⟩)] img =
        Except.ok ((org : Int) + 1,
          imgWrite img org (192 + jsAnd 31 (jsAnd (lorg - (org : Int) - 1) 255))) ∧
       pass2Op (("BE").toList) [(("BE").toList), ("L").toList] line org
          [(("L").toList, ⟨lnum, lorg⟩)] img =
        Except.ok ((org : Int) + 1,
          imgWrite img org (224 + jsAnd 31 (jsAnd (lorg - (org : Int) - 1) 255))))) := by
  have hup : upChars (("L").toList) = ("L").toList := rfl
  constructor
  · intro h31
    refine ⟨?_, ?_, ?_⟩
    · rw [pass2Op_BV_red, hup, fwdBranchByte_label, if_pos h31]
    · rw [pass2Op_BN_red, hup, fwdBranchByte_label, if_pos h31]
    · rw [pass2Op_BE_red, hup, fwdBranchByte_label, if_pos h31]
  · intro h31
    have hn := not_lt.mpr h31
    refine ⟨?_, ?_, ?_, ?_⟩
    · rw [pass2Op_BV_red, hup, fwdBranchByte_label, if_neg hn]
    · rw [imgWrite_read, if_pos ⟨by omega, by omega, rfl⟩, fwd_byte_mod]
      omega
    · rw [pass2Op_BN_red, hup, fwdBranchByte_label, if_neg hn]
    · rw [pass2Op_BE_red, hup, fwdBranchByte_label, if_neg hn]

/-- Witness for C4 (amended) at `label_org = 0`, counter 2 (branch value
−3 < 0: no diagnostic, byte `0xA0 + 29 = 0xBD`). -/
theorem C4_forward_branch_amended_witness :
    pass2Op (("BV").toList) [(("BV").toList), ("L").toList] [] (2 : Nat)
        [(("L").toList, ⟨1, 0⟩)] initImage =
      Except.ok (((2 : Nat) : Int) + 1,
        imgWrite initImage (2 : Nat)
          (160 + jsAnd 31 (jsAnd ((0 : Int) - ((2 : Nat) : Int) - 1) 255))) :=
  ((C4_forward_branch_amended 0 2 1 [] initImage (by norm_num)).2 (by norm_num)).1

theorem pass2Op_LN_red (p0 e line : Chars) (org : Int) (dict : LabelDict)
    (img : Image) :
    pass2Op (("LN").toList) [p0, e] line org dict img =
      (match evaluateExpression e with
       | none => Except.error ("Invalid expression: " ++ String.mk e)
       | some value =>
         match MSB value with
         | Except.error m => Except.error m
         | Except.ok hi =>
           match LSB value with
           | Except.error m => Except.error m
           | Except.ok lo =>
             Except.ok (org + 3,
               imgWrite (imgWrite (imgWrite img org 10) (org + 1) hi)
                 (org + 2) lo)) := rfl

/-- C5 (amended): the `LN` byte extraction is `value AND 0xFF` (low) and
`(value AND 0xFF00) >> 8` (high) exactly as claimed, but because the
masks are applied **first**, both extracted bytes always lie in 0–255,
the `LSB`/`MSB` range checks can never fire, and a value outside
0–65535 is silently reduced to its low 16 bits (two's complement) with
**no** diagnostic: for every evaluated value, `LN` succeeds and emits
`0x0A`, then `value mod 65536 / 256`, then `value mod 256`. -/
theorem C5_LN_amended (e line : Chars) (v : Int) (org : Int)
    (dict : LabelDict) (img : Image) (hev : evaluateExpression e = some v) :
    LSB v = Except.ok (v % 256) ∧
    MSB v = Except.ok (v % 65536 / 256) ∧
    (0 ≤ v % 256 ∧ v % 256 ≤ 255) ∧
    (0 ≤ v % 65536 / 256 ∧ v % 65536 / 256 ≤ 255) ∧
    pass2Op (("LN").toList) [(("LN").toList), e] line org dict img =
      Except.ok (org + 3,
        imgWrite (imgWrite (imgWrite img org 10) (org + 1) (v % 65536 / 256))
          (org + 2) (v % 256)) := by
  refine ⟨LSB_eq v, MSB_eq v, by omega, by omega, ?_⟩
  rw [pass2Op_LN_red, hev]
  show (match MSB v with
    | Except.error m => Except.error m
    | Except.ok hi =>
      match LSB v with
      | Except.error m => Except.error m
      | Except.ok lo =>
        Except.ok (org + 3,
          imgWrite (imgWrite (imgWrite img org 10) (org + 1) hi) (org + 2) lo)) = _
  rw [MSB_eq, LSB_eq]

/-- Witness for C5 (amended) at the out-of-range value `LN 65536`
(bytes `0A 00 00`, no diagnostic). -/
theorem C5_LN_amended_witness :
    LSB 65536 = Except.ok ((65536 : Int) % 256) ∧
    MSB 65536 = Except.ok ((65536 : Int) % 65536 / 256) ∧
    pass2Op (("LN").toList) [(("LN").toList), ("65536").toList] [] 0 [] initImage =
      Except.ok ((0 : Int) + 3,
        imgWrite (imgWrite (imgWrite initImage 0 10) (0 + 1)
          ((65536 : Int) % 65536 / 256)) (0 + 2) ((65536 : Int) % 256)) := by
  have h := C5_LN_amended (("65536").toList) [] 65536 0 [] initImage (by decide)
  exact ⟨h.1, h.2.1, h.2.2.2.2⟩

/-- C9 (amended): a write whose target address is past 65535 is a silent
no-op (the typed-array assignment is dropped), **no** diagnostic is
produced, and the counter still advances: an `LN` at a counter ≥ 65536
succeeds and leaves the image completely unchanged. -/
theorem C9_oob_write_amended (e line : Chars) (v org : Int)
    (dict : LabelDict) (img : Image) (hev : evaluateExpression e = some v)
    (horg : 65536 ≤ org) :
    pass2Op (("LN").toList) [(("LN").toList), e] line org dict img =
      Except.ok (org + 3, img) := by
  rw [pass2Op_LN_red, hev]
  show (match MSB v with
    | Except.error m => Except.error m
    | Except.ok hi =>
      match LSB v with
      | Except.error m => Except.error m
      | Except.ok lo =>
        Except.ok (org + 3,
          imgWrite (imgWrite (imgWrite img org 10) (org + 1) hi) (org + 2) lo)) = _
  rw [MSB_eq, LSB_eq]
  show Except.ok (org + 3,
    imgWrite (imgWrite (imgWrite img org 10) (org + 1) (v % 65536 / 256))
      (org + 2) (v % 256)) = _
  rw [imgWrite_oob img org 10 horg,
    imgWrite_oob img (org + 1) (v % 65536 / 256) (by omega),
    imgWrite_oob img (org + 2) (v % 256) (by omega)]

/-- Witness for C9 (amended) at counter 65536 with `LN 5`. -/
theorem C9_oob_write_amended_witness :
    pass2Op (("LN").toList) [(("LN").toList), ("5").toList] [] 65536 [] initImage =
      Except.ok ((65536 : Int) + 3, initImage) :=
  C9_oob_write_amended (("5").toList) [] 5 65536 [] initImage (by decide)
    (by norm_num)

theorem processJ_star_red (ln : Nat) (org : Int) (dict : LabelDict) (img : Image) :
    processPass2Line (("J *").toList) ln org dict img =
      ⟨org + 2, imgWrite (imgWrite img org 56) (org + 1) 0, none⟩ := rfl

theorem processJS_star_red (ln : Nat) (org : Int) (dict : LabelDict) (img : Image) :
    processPass2Line (("JS *").toList) ln org dict img =
      ⟨org + 2, imgWrite (imgWrite img org 48) (org + 1) 0, none⟩ := rfl

theorem processBR_star_red (ln : Nat) (org : Int) (dict : LabelDict) (img : Image) :
    processPass2Line (("BR *").toList) ln org dict img =
      ⟨org + 1, imgWrite img org 64, none⟩ := rfl

theorem processBV_star_red (ln : Nat) (org : Int) (dict : LabelDict) (img : Image) :
    processPass2Line (("BV *").toList) ln org dict img =
      ⟨org + 1, imgWrite img org 160, none⟩ := rfl

theorem processBN_star_red (ln : Nat) (org : Int) (dict : LabelDict) (img : Image) :
    processPass2Line (("BN *").toList) ln org dict img =
      ⟨org + 1, imgWrite img org 192, none⟩ := rfl

theorem processBE_star_red (ln : Nat) (org : Int) (dict : LabelDict) (img : Image) :
    processPass2Line (("BE *").toList) ln org dict img =
      ⟨org + 1, imgWrite img org 224, none⟩ := rfl

theorem processBC_star_red (ln : Nat) (org : Int) (dict : LabelDict) (img : Image) :
    processPass2Line (("BC *, \"A\"").toList) ln org dict img =
      ⟨org + 1 + 1, imgWrite (imgWrite img org 128) (org + 1) 193, none⟩ := rfl

/-- C10: with the `*` operand, every jump and branch (`J`, `JS`, `BR`,
`BV`, `BN`, `BE`, `BC`) encodes the constant 0 regardless of the current
counter and of the dictionary, with no possibility of a range
diagnostic: `J`/`JS` emit the bare base opcode and a `0x00` low byte
(target address 0, not the current position), the branches emit the bare
base opcode (offset field 0), and `BC` emits `0x80` followed by the
transformed text. -/
theorem C10_star_operand (org ln : Nat) (dict : LabelDict) (img : Image)
    (h : org + 1 < 65536) :
    ((processPass2Line (("J *").toList) ln org dict img).err = none ∧
     (processPass2Line (("J *").toList) ln org dict img).newOrg = (org : Int) + 2 ∧
     (processPass2Line (("J *").toList) ln org dict img).img org = 0x38 ∧
     (processPass2Line (("J *").toList) ln org dict img).img (org + 1) = 0x00) ∧
    ((processPass2Line (("JS *").toList) ln org dict img).err = none ∧
     (processPass2Line (("JS *").toList) ln org dict img).newOrg = (org : Int) + 2 ∧
     (processPass2Line (("JS *").toList) ln org dict img).img org = 0x30 ∧
     (processPass2Line (("JS *").toList) ln org dict img).img (org + 1) = 0x00) ∧
    ((processPass2Line (("BR *").toList) ln org dict img).err = none ∧
     (processPass2Line (("BR *").toList) ln org dict img).newOrg = (org : Int) + 1 ∧
     (processPass2Line (("BR *").toList) ln org dict img).img org = 0x40) ∧
    ((processPass2Line (("BV *").toList) ln org dict img).err = none ∧
     (processPass2Line (("BV *").toList) ln org dict img).newOrg = (org : Int) + 1 ∧
     (processPass2Line (("BV *").toList) ln org dict img).img org = 0xA0) ∧
    ((processPass2Line (("BN *").toList) ln org dict img).err = none ∧
     (processPass2Line (("BN *").toList) ln org dict img).newOrg = (org : Int) + 1 ∧
     (processPass2Line (("BN *").toList) ln org dict img).img org = 0xC0) ∧
    ((processPass2Line (("BE *").toList) ln org dict img).err = none ∧
     (processPass2Line (("BE *").toList) ln org dict img).newOrg = (org : Int) + 1 ∧
     (processPass2Line (("BE *").toList) ln org dict img).img org = 0xE0) ∧
    ((processPass2Line (("BC *, \"A\"").toList) ln org dict img).err = none ∧
     (processPass2Line (("BC *, \"A\"").toList) ln org dict img).newOrg =
       (org : Int) + 1 + 1 ∧
     (processPass2Line (("BC *, \"A\"").toList) ln org dict img).img org = 0x80 ∧
     (processPass2Line (("BC *, \"A\"").toList) ln org dict img).img (org + 1) =
       0xC1) := by
  refine ⟨⟨?_, ?_, ?_, ?_⟩, ⟨?_, ?_, ?_, ?_⟩, ⟨?_, ?_, ?_⟩, ⟨?_, ?_, ?_⟩,
    ⟨?_, ?_, ?_⟩, ⟨?_, ?_, ?_⟩, ⟨?_, ?_, ?_, ?_⟩⟩ <;>
    simp only [processJ_star_red, processJS_star_red, processBR_star_red,
      processBV_star_red, processBN_star_red, processBE_star_red,
      processBC_star_red] <;>
    simp only [imgWrite_read] <;>
    norm_num
  all_goals omega

/-- Witness for C10 at counter 0 with the empty dictionary. -/
theorem C10_star_operand_witness :
    (processPass2Line (("J *").toList) 1 (0 : Nat) [] initImage).err = none ∧
    (processPass2Line (("J *").toList) 1 (0 : Nat) [] initImage).img 0 = 0x38 :=
  ⟨(C10_star_operand 0 1 [] initImage (by norm_num)).1.1,
   (C10_star_operand 0 1 [] initImage (by norm_num)).1.2.2.1⟩

/-! ## Per-line invariants (C2) -/

theorem pass1Op_mono (instr : Chars) (parts : List Chars) (line : Chars)
    (org v : Int) (h : pass1Op instr parts line org = Except.ok v) : org ≤ v := by
  unfold pass1Op at h
  by_cases c1 : instr = (".ORG").toList
  · rw [if_pos c1] at h
    rcases parts with _ | ⟨p0, _ | ⟨p1, rest⟩⟩
    · exact Except.noConfusion h
    · exact Except.noConfusion h
    · simp only [] at h
      rcases hev : evaluateExpression p1 with _ | v0
      · rw [hev] at h
        exact Except.noConfusion h
      · rw [hev] at h
        simp only [] at h
        by_cases hlt : v0 < org
        · rw [if_pos hlt] at h
          exact Except.noConfusion h
        · rw [if_neg hlt] at h
          injection h with h
          omega
  · rw [if_neg c1] at h
    by_cases c2 : instr = ("SX").toList
    · rw [if_pos c2] at h
      rcases parts with _ | ⟨p0, _ | ⟨p1, rest⟩⟩
      · exact Except.noConfusion h
      · exact Except.noConfusion h
      · simp only [] at h
        rcases hp : jsParseIntOct p1 with _ | d
        · rw [hp] at h
          exact Except.noConfusion h
        · rw [hp] at h
          simp only [] at h
          by_cases hd : d < 0 ∨ 7 < d
          · rw [if_pos hd] at h
            exact Except.noConfusion h
          · rw [if_neg hd] at h
            injection h with h
            omega
    · rw [if_neg c2] at h
      by_cases c3 : (singleOpcode instr).isSome = true
      · rw [if_pos c3] at h
        injection h with h
        omega
      · rw [if_neg c3] at h
        by_cases c4 : instr = ("LB").toList
        · rw [if_pos c4] at h
          rcases parts with _ | ⟨p0, _ | ⟨p1, rest⟩⟩
          · exact Except.noConfusion h
          · exact Except.noConfusion h
          · simp only [] at h
            rcases hev : evaluateExpression p1 with _ | v0 <;> rw [hev] at h
            · exact Except.noConfusion h
            · injection h with h
              omega
        · rw [if_neg c4] at h
          by_cases c5 : instr = ("LN").toList
          · rw [if_pos c5] at h
            rcases parts with _ | ⟨p0, _ | ⟨p1, rest⟩⟩
            · exact Except.noConfusion h
            · exact Except.noConfusion h
            · simp only [] at h
              rcases hev : evaluateExpression p1 with _ | v0 <;> rw [hev] at h
              · exact Except.noConfusion h
              · injection h with h
                omega
          · rw [if_neg c5] at h
            by_cases c6 : instr = ("JS").toList ∨ instr = ("J").toList
            · rw [if_pos c6] at h
              rcases parts with _ | ⟨p0, _ | ⟨p1, rest⟩⟩
              · exact Except.noConfusion h
              · exact Except.noConfusion h
              · injection h with h
                omega
            · rw [if_neg c6] at h
              by_cases c7 : instr = ("BR").toList
              · rw [if_pos c7] at h
                rcases parts with _ | ⟨p0, _ | ⟨p1, rest⟩⟩
                · exact Except.noConfusion h
                · exact Except.noConfusion h
                · injection h with h
                  omega
              · rw [if_neg c7] at h
                by_cases c8 : instr = ("BV").toList ∨ instr = ("BN").toList ∨
                    instr = ("BE").toList
                · rw [if_pos c8] at h
                  rcases parts with _ | ⟨p0, _ | ⟨p1, rest⟩⟩
                  · exact Except.noConfusion h
                  · exact Except.noConfusion h
                  · injection h with h
                    omega
                · rw [if_neg c8] at h
                  by_cases c9 : instr = ("PC").toList
                  · rw [if_pos c9] at h
                    rcases parts with _ | ⟨p0, _ | ⟨p1, rest⟩⟩
                    · exact Except.noConfusion h
                    · exact Except.noConfusion h
                    · simp only [] at h
                      rcases hpc : pcMatch (line.length + 1) line with _ | content <;>
                        rw [hpc] at h
                      · exact Except.noConfusion h
                      · injection h with h
                        have : (0 : Int) ≤ ((transformText content).2 : Int) := by
                          positivity
                        omega
                  · rw [if_neg c9] at h
                    by_cases c10 : instr = ("BC").toList
                    · rw [if_pos c10] at h
                      rcases parts with _ | ⟨p0, _ | ⟨p1, _ | ⟨p2, rest⟩⟩⟩
                      · exact Except.noConfusion h
                      · exact Except.noConfusion h
                      · exact Except.noConfusion h
                      · simp only [] at h
                        rcases hbc : bcMatch (line.length + 1) line with _ | pr <;>
                          rw [hbc] at h
                        · exact Except.noConfusion h
                        · injection h with h
                          have : (0 : Int) ≤ ((transformText pr.2).2 : Int) := by
                            positivity
                          omega
                    · rw [if_neg c10] at h
                      exact Except.noConfusion h

/-- A successful Pass 2 dispatch implies that the Pass 1 dispatch on the
same line succeeds with exactly the same new counter (the "emitted size"
agrees across the passes), and that the bytes written lie entirely inside
the counter span `[org, newOrg)`. -/
theorem pass2Op_ok_facts (instr : Chars) (parts : List Chars) (line : Chars)
    (org : Int) (dict : LabelDict) (img : Image) (st : Int × Image)
    (h : pass2Op instr parts line org dict img = Except.ok st) :
    pass1Op instr parts line org = Except.ok st.1 ∧
    ∀ j : Nat, ((j : Int) < org ∨ st.1 ≤ (j : Int)) → st.2 j = img j := by
  unfold pass2Op at h
  unfold pass1Op
  by_cases c1 : instr = (".ORG").toList
  · rw [if_pos c1] at h ⊢
    rcases parts with _ | ⟨p0, _ | ⟨p1, rest⟩⟩
    · exact Except.noConfusion h
    · exact Except.noConfusion h
    · simp only [] at h ⊢
      rcases hev : evaluateExpression p1 with _ | v0 <;> ((try rw [hev] at h); (try rw [hev]))
      · exact Except.noConfusion h
      · simp only [] at h ⊢
        by_cases hlt : v0 < org
        · rw [if_pos hlt] at h
          exact Except.noConfusion h
        · rw [if_neg hlt] at h ⊢
          injection h with h
          subst h
          exact ⟨rfl, fun j _ => rfl⟩
  · rw [if_neg c1] at h ⊢
    by_cases c2 : instr = ("SX").toList
    · rw [if_pos c2] at h ⊢
      rcases parts with _ | ⟨p0, _ | ⟨p1, rest⟩⟩
      · exact Except.noConfusion h
      · exact Except.noConfusion h
      · simp only [] at h ⊢
        rcases hp : jsParseIntOct p1 with _ | d <;> ((try rw [hp] at h); (try rw [hp]))
        · exact Except.noConfusion h
        · simp only [] at h ⊢
          by_cases hd : d < 0 ∨ 7 < d
          · rw [if_pos hd] at h
            exact Except.noConfusion h
          · rw [if_neg hd] at h ⊢
            injection h with h
            subst h
            exact ⟨rfl, fun j hj => imgWrite_ne _ _ _ _ (by omega)⟩
    · rw [if_neg c2] at h ⊢
      rcases hso : singleOpcode instr with _ | opcode <;> (try rw [hso] at h)
      · have hns : ¬ ((none : Option Int).isSome = true) := by simp
        rw [if_neg hns]
        simp only [] at h
        by_cases c4 : instr = ("LB").toList
        · rw [if_pos c4] at h ⊢
          rcases parts with _ | ⟨p0, _ | ⟨p1, rest⟩⟩
          · exact Except.noConfusion h
          · exact Except.noConfusion h
          · simp only [] at h ⊢
            rcases hev : evaluateExpression p1 with _ | v0 <;> ((try rw [hev] at h); (try rw [hev]))
            · exact Except.noConfusion h
            · simp only [] at h
              rw [LSB_eq] at h
              simp only [] at h
              injection h with h
              subst h
              refine ⟨rfl, fun j hj => ?_⟩
              simp only [] at hj ⊢
              rw [imgWrite_ne _ _ _ _ (by simp at hj ⊢; omega),
                imgWrite_ne _ _ _ _ (by simp at hj ⊢; omega)]
        · rw [if_neg c4] at h ⊢
          by_cases c5 : instr = ("LN").toList
          · rw [if_pos c5] at h ⊢
            rcases parts with _ | ⟨p0, _ | ⟨p1, rest⟩⟩
            · exact Except.noConfusion h
            · exact Except.noConfusion h
            · simp only [] at h ⊢
              rcases hev : evaluateExpression p1 with _ | v0 <;> ((try rw [hev] at h); (try rw [hev]))
              · exact Except.noConfusion h
              · simp only [] at h
                rw [MSB_eq] at h
                simp only [] at h
                rw [LSB_eq] at h
                simp only [] at h
                injection h with h
                subst h
                refine ⟨rfl, fun j hj => ?_⟩
                simp only [] at hj ⊢
                rw [imgWrite_ne _ _ _ _ (by simp at hj ⊢; omega),
                  imgWrite_ne _ _ _ _ (by simp at hj ⊢; omega),
                  imgWrite_ne _ _ _ _ (by simp at hj ⊢; omega)]
          · rw [if_neg c5] at h ⊢
            by_cases c6 : instr = ("JS").toList ∨ instr = ("J").toList
            · rw [if_pos c6] at h ⊢
              rcases parts with _ | ⟨p0, _ | ⟨p1, rest⟩⟩
              · exact Except.noConfusion h
              · exact Except.noConfusion h
              · simp only [] at h ⊢
                rcases htv : (if upChars p1 = ['*'] then some 0
                    else (dictLookup dict (upChars p1)).map
                      fun en => en.org_value) with _ | tv <;> (try rw [htv] at h)
                · exact Except.noConfusion h
                · simp only [] at h
                  by_cases hr : tv < 0 ∨ 2047 < tv
                  · rw [if_pos hr] at h
                    exact Except.noConfusion h
                  · rw [if_neg hr] at h
                    rw [MSB_eq] at h
                    simp only [] at h
                    rw [LSB_eq] at h
                    simp only [] at h
                    injection h with h
                    subst h
                    refine ⟨rfl, fun j hj => ?_⟩
                    simp only [] at hj ⊢
                    rw [imgWrite_ne _ _ _ _ (by simp at hj ⊢; omega),
                      imgWrite_ne _ _ _ _ (by simp at hj ⊢; omega)]
            · rw [if_neg c6] at h ⊢
              by_cases c7 : instr = ("BR").toList
              · rw [if_pos c7] at h ⊢
                rcases parts with _ | ⟨p0, _ | ⟨p1, rest⟩⟩
                · exact Except.noConfusion h
                · exact Except.noConfusion h
                · simp only [] at h ⊢
                  rcases hbv : (if upChars p1 = ['*'] then Except.ok 0
                      else match dictLookup dict (upChars p1) with
                        | none => Except.error ("Branch label not found: " ++
                            String.mk (upChars p1))
                        | some en =>
                          if 63 < (if org ≤ en.org_value then
                              en.org_value - org + 32
                            else en.org_value - org + 31) ∨
                            (if org ≤ en.org_value then en.org_value - org + 32
                            else en.org_value - org + 31) < 0 then
                            Except.error ("Relative branch value out of range (0-63): " ++
                              toString (if org ≤ en.org_value then
                                  en.org_value - org + 32
                                else en.org_value - org + 31))
                          else Except.ok (if org ≤ en.org_value then
                              en.org_value - org + 32
                            else en.org_value - org + 31)) with m | bv <;>
                    (try rw [hbv] at h)
                  · exact Except.noConfusion h
                  · simp only [] at h
                    injection h with h
                    subst h
                    exact ⟨rfl, fun j hj => imgWrite_ne _ _ _ _ (by simp at hj ⊢; omega)⟩
              · rw [if_neg c7] at h ⊢
                by_cases cBV : instr = ("BV").toList
                · rw [if_pos cBV] at h
                  rw [if_pos (Or.inl cBV)]
                  rcases parts with _ | ⟨p0, _ | ⟨p1, rest⟩⟩
                  · exact Except.noConfusion h
                  · exact Except.noConfusion h
                  · simp only [] at h ⊢
                    rcases hfb : fwdBranchByte 160 (upChars p1) org dict with m | b <;>
                      (try rw [hfb] at h)
                    · exact Except.noConfusion h
                    · simp only [] at h
                      injection h with h
                      subst h
                      exact ⟨rfl, fun j hj =>
                        imgWrite_ne _ _ _ _ (by simp at hj ⊢; omega)⟩
                · rw [if_neg cBV] at h
                  by_cases cBN : instr = ("BN").toList
                  · rw [if_pos cBN] at h
                    rw [if_pos (Or.inr (Or.inl cBN))]
                    rcases parts with _ | ⟨p0, _ | ⟨p1, rest⟩⟩
                    · exact Except.noConfusion h
                    · exact Except.noConfusion h
                    · simp only [] at h ⊢
                      rcases hfb : fwdBranchByte 192 (upChars p1) org dict with m | b <;>
                        (try rw [hfb] at h)
                      · exact Except.noConfusion h
                      · simp only [] at h
                        injection h with h
                        subst h
                        exact ⟨rfl, fun j hj =>
                          imgWrite_ne _ _ _ _ (by simp at hj ⊢; omega)⟩
                  · rw [if_neg cBN] at h
                    by_cases cBE : instr = ("BE").toList
                    · rw [if_pos cBE] at h
                      rw [if_pos (Or.inr (Or.inr cBE))]
                      rcases parts with _ | ⟨p0, _ | ⟨p1, rest⟩⟩
                      · exact Except.noConfusion h
                      · exact Except.noConfusion h
                      · simp only [] at h ⊢
                        rcases hfb : fwdBranchByte 224 (upChars p1) org dict with m | b <;>
                          rw [hfb] at h
                        · exact Except.noConfusion h
                        · simp only [] at h
                          injection h with h
                          subst h
                          exact ⟨rfl, fun j hj =>
                            imgWrite_ne _ _ _ _ (by simp at hj ⊢; omega)⟩
                    · rw [if_neg cBE] at h
                      rw [if_neg (by tauto)]
                      by_cases c9 : instr = ("PC").toList
                      · rw [if_pos c9] at h ⊢
                        rcases parts with _ | ⟨p0, _ | ⟨p1, rest⟩⟩
                        · exact Except.noConfusion h
                        · exact Except.noConfusion h
                        · simp only [] at h ⊢
                          rcases hpc : pcMatch (line.length + 1) line with _ | content <;>
                            ((try rw [hpc] at h); (try rw [hpc]))
                          · exact Except.noConfusion h
                          · simp only [] at h
                            injection h with h
                            subst h
                            refine ⟨rfl, fun j hj => ?_⟩
                            simp only [] at hj ⊢
                            rw [writeBytes_outside _ _ _ _ (by omega),
                              imgWrite_ne _ _ _ _ (by omega)]
                      · rw [if_neg c9] at h ⊢
                        by_cases c10 : instr = ("BC").toList
                        · rw [if_pos c10] at h ⊢
                          rcases parts with _ | ⟨p0, _ | ⟨p1, _ | ⟨p2, rest⟩⟩⟩
                          · exact Except.noConfusion h
                          · exact Except.noConfusion h
                          · exact Except.noConfusion h
                          · simp only [] at h ⊢
                            rcases hbc : bcMatch (line.length + 1) line with _ | pr <;>
                              ((try rw [hbc] at h); (try rw [hbc]))
                            · exact Except.noConfusion h
                            · simp only [] at h
                              rcases hfb : fwdBranchByte 128 (upChars pr.1) org dict with
                                m | b <;> (try rw [hfb] at h)
                              · exact Except.noConfusion h
                              · simp only [] at h
                                injection h with h
                                subst h
                                refine ⟨rfl, fun j hj => ?_⟩
                                simp only [] at hj ⊢
                                rw [writeBytes_outside _ _ _ _ (by omega),
                                  imgWrite_ne _ _ _ _ (by omega)]
                        · rw [if_neg c10] at h
                          exact Except.noConfusion h
      · simp only [] at h
        injection h with h
        subst h
        have hps : ((some opcode : Option Int).isSome = true) := rfl
        rw [if_pos hps]
        exact ⟨rfl, fun j hj => imgWrite_ne _ _ _ _ (by simp at hj ⊢; omega)⟩

/-- Either a Pass 1 body run fails leaving the counter unchanged, or it
runs the dispatch on the tokenized line and takes its new counter. -/
theorem pass1Body_run (ls : Chars) (org : Int) (dict : LabelDict) :
    ((pass1Body ls org dict).err ≠ none ∧ (pass1Body ls org dict).newOrg = org) ∨
    (∃ p0 rest v, tokenizeParts ls = p0 :: rest ∧
        pass1Op (upChars p0) (p0 :: rest) ls org = Except.ok v ∧
        (pass1Body ls org dict).newOrg = v ∧ (pass1Body ls org dict).err = none) := by
  unfold pass1Body
  split
  · left
    exact ⟨by simp, rfl⟩
  · split
    · left
      exact ⟨by simp, rfl⟩
    · split
      next v hop => exact Or.inr ⟨_, _, v, by assumption, hop, rfl, rfl⟩
      next e hop =>
        left
        exact ⟨by simp, rfl⟩

theorem pass2Body_run (ls : Chars) (org : Int) (dict : LabelDict) (img : Image) :
    ((pass2Body ls org dict img).err ≠ none ∧
     (pass2Body ls org dict img).newOrg = org ∧
     (pass2Body ls org dict img).img = img) ∨
    (∃ p0 rest st, tokenizeParts ls = p0 :: rest ∧
        pass2Op (upChars p0) (p0 :: rest) ls org dict img = Except.ok st ∧
        (pass2Body ls org dict img).newOrg = st.1 ∧
        (pass2Body ls org dict img).img = st.2 ∧
        (pass2Body ls org dict img).err = none) := by
  unfold pass2Body
  split
  · left
    exact ⟨by simp, rfl, rfl⟩
  · split
    · left
      exact ⟨by simp, rfl, rfl⟩
    · split
      next v2 i2 hop =>
        exact Or.inr ⟨_, _, (v2, i2), by assumption, hop, by simp, by simp, rfl⟩
      next e hop =>
        left
        exact ⟨by simp, rfl, rfl⟩

/-- Either a Pass 1 line fails leaving the counter unchanged, or the
dispatch ran on the post-label remainder at the same counter. -/
theorem processPass1Line_run (line : Chars) (n : Nat) (org : Int)
    (dict : LabelDict) :
    ((processPass1Line line n org dict).err ≠ none ∧
     (processPass1Line line n org dict).newOrg = org) ∨
    (∃ p0 rest v, tokenizeParts ((extractLabel line).remaining) = p0 :: rest ∧
        pass1Op (upChars p0) (p0 :: rest) ((extractLabel line).remaining) org =
          Except.ok v ∧
        (processPass1Line line n org dict).newOrg = v ∧
        (processPass1Line line n org dict).err = none) := by
  unfold processPass1Line
  split
  next lbl? rem heq =>
    simp only [heq]
    split
    · split
      · left
        exact ⟨by simp, rfl⟩
      · rcases pass1Body_run rem org (dictAdd dict _ ⟨n, org⟩) with ⟨h1, h2⟩ | h
        · exact Or.inl ⟨h1, h2⟩
        · exact Or.inr h
    · rcases pass1Body_run rem org dict with ⟨h1, h2⟩ | h
      · exact Or.inl ⟨h1, h2⟩
      · exact Or.inr h
  next r e heq =>
    left
    exact ⟨by simp, rfl⟩

theorem processPass2Line_run (line : Chars) (n : Nat) (org : Int)
    (dict : LabelDict) (img : Image) :
    ((processPass2Line line n org dict img).err ≠ none ∧
     (processPass2Line line n org dict img).newOrg = org ∧
     (processPass2Line line n org dict img).img = img) ∨
    (∃ p0 rest st, tokenizeParts ((extractLabel line).remaining) = p0 :: rest ∧
        pass2Op (upChars p0) (p0 :: rest) ((extractLabel line).remaining) org
          dict img = Except.ok st ∧
        (processPass2Line line n org dict img).newOrg = st.1 ∧
        (processPass2Line line n org dict img).img = st.2 ∧
        (processPass2Line line n org dict img).err = none) := by
  unfold processPass2Line
  split
  next lbl? rem heq =>
    simp only [heq]
    split
    · split
      · left
        exact ⟨by simp, rfl, rfl⟩
      · exact pass2Body_run rem org dict img
    · exact pass2Body_run rem org dict img
  next r e heq =>
    left
    exact ⟨by simp, rfl, rfl⟩

/-- The Pass 1 loop processes a concatenation by processing all the first
lines and continuing — no line aborts the scan. -/
theorem pass1Go_append (xs ys : List Chars) (ln : Nat) (dict : LabelDict)
    (ec : Nat) (errs : List String) (org : Int) :
    pass1Go (xs ++ ys) ln dict ec errs org =
      pass1Go ys (ln + xs.length) (pass1Go xs ln dict ec errs org).labelDictionary
        (pass1Go xs ln dict ec errs org).errorCount
        (pass1Go xs ln dict ec errs org).errors
        (pass1Go xs ln dict ec errs org).finalOrgValue := by
  induction xs generalizing ln dict ec errs org with
  | nil => simp [pass1Go]
  | cons raw rest ih =>
    show pass1Go (raw :: (rest ++ ys)) ln dict ec errs org = _
    rw [pass1Go]
    conv_rhs => rw [pass1Go]
    have hlen : ln + (raw :: rest).length = (ln + 1) + rest.length := by
      simp
      omega
    rw [hlen]
    split
    · exact ih (ln + 1) dict ec errs org
    · split
      · rename_i newOrg2 dict2 heq
        exact ih (ln + 1) dict2 ec errs newOrg2
      · rename_i x2 dict2 e2 heq
        exact ih (ln + 1) dict2 (ec + 1) _ org

theorem pass2Go_append (xs ys : List Chars) (ln : Nat) (img : Image)
    (ec : Nat) (errs : List String) (org : Int) (dict : LabelDict) :
    pass2Go (xs ++ ys) ln img ec errs org dict =
      pass2Go ys (ln + xs.length) (pass2Go xs ln img ec errs org dict).machineCode
        (pass2Go xs ln img ec errs org dict).errorCount
        (pass2Go xs ln img ec errs org dict).errors
        (pass2Go xs ln img ec errs org dict).finalOrgValue dict := by
  induction xs generalizing ln img ec errs org with
  | nil => simp [pass2Go]
  | cons raw rest ih =>
    show pass2Go (raw :: (rest ++ ys)) ln img ec errs org dict = _
    rw [pass2Go]
    conv_rhs => rw [pass2Go]
    have hlen : ln + (raw :: rest).length = (ln + 1) + rest.length := by
      simp
      omega
    rw [hlen]
    split
    · exact ih (ln + 1) img ec errs org
    · split
      · rename_i newOrg2 img2 heq
        exact ih (ln + 1) img2 ec errs newOrg2
      · rename_i x2 img2 e2 heq
        exact ih (ln + 1) img2 (ec + 1) _ org

/-- C2: per-line invariants of both passes.  (1) A Pass 1 diagnostic
leaves the counter unchanged; (2) a Pass 2 diagnostic leaves both the
counter and the image unchanged; (3) a successful Pass 1 line never moves
the counter backward; (4) when a line succeeds in both passes it advances
the counter by exactly the same amount (the emitted size agrees across
passes); (5) a successful Pass 2 line writes only inside the span
`[counter, counter')`; (6, 7) both per-line loops process a concatenation
of lines by processing all of the first lines and then all of the rest —
no diagnostic aborts the run, every line is visited. -/
theorem C2_line_invariants :
    (∀ (line : Chars) (n : Nat) (org : Int) (dict : LabelDict),
       (processPass1Line line n org dict).err ≠ none →
       (processPass1Line line n org dict).newOrg = org) ∧
    (∀ (line : Chars) (n : Nat) (org : Int) (dict : LabelDict) (img : Image),
       (processPass2Line line n org dict img).err ≠ none →
       (processPass2Line line n org dict img).newOrg = org ∧
       (processPass2Line line n org dict img).img = img) ∧
    (∀ (line : Chars) (n : Nat) (org : Int) (dict : LabelDict),
       (processPass1Line line n org dict).err = none →
       org ≤ (processPass1Line line n org dict).newOrg) ∧
    (∀ (line : Chars) (n m : Nat) (org : Int) (dict1 dict2 : LabelDict)
       (img : Image),
       (processPass1Line line n org dict1).err = none →
       (processPass2Line line m org dict2 img).err = none →
       (processPass1Line line n org dict1).newOrg =
         (processPass2Line line m org dict2 img).newOrg) ∧
    (∀ (line : Chars) (n : Nat) (org : Int) (dict : LabelDict) (img : Image),
       (processPass2Line line n org dict img).err = none →
       ∀ j : Nat,
         ((j : Int) < org ∨ (processPass2Line line n org dict img).newOrg ≤ (j : Int)) →
         (processPass2Line line n org dict img).img j = img j) ∧
    (∀ (xs ys : List Chars) (ln : Nat) (dict : LabelDict) (ec : Nat)
       (errs : List String) (org : Int),
       pass1Go (xs ++ ys) ln dict ec errs org =
         pass1Go ys (ln + xs.length)
           (pass1Go xs ln dict ec errs org).labelDictionary
           (pass1Go xs ln dict ec errs org).errorCount
           (pass1Go xs ln dict ec errs org).errors
           (pass1Go xs ln dict ec errs org).finalOrgValue) ∧
    (∀ (xs ys : List Chars) (ln : Nat) (img : Image) (ec : Nat)
       (errs : List String) (org : Int) (dict : LabelDict),
       pass2Go (xs ++ ys) ln img ec errs org dict =
         pass2Go ys (ln + xs.length)
           (pass2Go xs ln img ec errs org dict).machineCode
           (pass2Go xs ln img ec errs org dict).errorCount
           (pass2Go xs ln img ec errs org dict).errors
           (pass2Go xs ln img ec errs org dict).finalOrgValue dict) := by
  refine ⟨?_, ?_, ?_, ?_, ?_, pass1Go_append, pass2Go_append⟩
  · intro line n org dict h
    rcases processPass1Line_run line n org dict with ⟨_, h2⟩ | ⟨_, _, _, _, _, _, he⟩
    · exact h2
    · exact absurd he h
  · intro line n org dict img h
    rcases processPass2Line_run line n org dict img with
      ⟨_, h2, h3⟩ | ⟨_, _, _, _, _, _, _, he⟩
    · exact ⟨h2, h3⟩
    · exact absurd he h
  · intro line n org dict h
    rcases processPass1Line_run line n org dict with ⟨h1, _⟩ | ⟨p0, rest, v, _, hop, hn, _⟩
    · exact absurd h h1
    · rw [hn]
      exact pass1Op_mono _ _ _ _ _ hop
  · intro line n m org dict1 dict2 img h1 h2
    rcases processPass1Line_run line n org dict1 with ⟨hne, _⟩ | ⟨p0, rest, v, ht1, hop1, hn1, _⟩
    · exact absurd h1 hne
    · rcases processPass2Line_run line m org dict2 img with
        ⟨hne, _, _⟩ | ⟨q0, qrest, st, ht2, hop2, hn2, _, _⟩
      · exact absurd h2 hne
      · rw [ht1] at ht2
        injection ht2 with hq0 hqrest
        subst hq0
        subst hqrest
        have hagree := (pass2Op_ok_facts _ _ _ _ _ _ _ hop2).1
        rw [hop1] at hagree
        injection hagree with hv
        rw [hn1, hn2, hv]
  · intro line n org dict img h j hj
    rcases processPass2Line_run line n org dict img with
      ⟨hne, _, _⟩ | ⟨p0, rest, st, _, hop, hn, him, _⟩
    · exact absurd h hne
    · rw [him]
      refine (pass2Op_ok_facts _ _ _ _ _ _ _ hop).2 j ?_
      rw [hn] at hj
      exact hj

/-- Witness for C2 at the concrete failing line `QQ` (unknown mnemonic):
the Pass 1 counter stays 0. -/
theorem C2_line_invariants_witness :
    (processPass1Line (("QQ").toList) 1 0 []).newOrg = 0 :=
  C2_line_invariants.1 (("QQ").toList) 1 0 [] (by decide)

/-- Witness for C1's final universally-quantified conjunct at address 100. -/
theorem C1_end_to_end_witness :
    (pass2 ((":START NO\nNO\nJ START").toList)
      [(("START").toList, ⟨1, 0⟩)]).machineCode 100 = 0 :=
  C1_end_to_end.2.2.2.2.2.2.2.2.2.2 100 (by norm_num)

end TBAsm
